import Mathlib

/-!
# Verification of the mocktioneer ad-exchange core

A shallow embedding, in Lean 4, of the core of the `mocktioneer` mock
RTB exchange (Rust): the size/pricing table, the transparent base64
price codec, bid synthesis (`auction.rs`), the mediation engine
(`mediation.rs`), the APS response builder, the JWKS cache and
signature-verification pipeline (`verification.rs`), and the
signature-status decision of the auction route (`routes.rs`).

Modelling conventions:
* Rust `f64` prices are modelled as `ℚ` (all prices in the system are
  finite decimals; `ℚ` gives the exact arithmetic the code performs on
  them, and `f64::round` is modelled as round-half-away-from-zero).
* Rust `String`/`&str` values are modelled as `String`/`List Char`;
  UTF-8 byte buffers as `List ℕ`.
* `Uuid::now_v7` fresh-id generation is modelled as a counter-indexed
  injective id supply (`genId`): only freshness/distinctness of the
  generated ids is observable in the properties below.
* `HashMap` accumulation is modelled by association lists keyed in
  first-insertion order; the code never depends on map iteration order
  for any property considered here.
-/

namespace Mocktioneer

/-! ## Decimal digit strings

Infrastructure for `f64::to_string` / `str::parse::<f64>` restricted to
plain decimal numerals, which is the fragment the price codec exercises.
-/

/-- The character for decimal digit `d` (`'0'` is code 48). -/
def digitChar (d : ℕ) : Char := Char.ofNat (48 + d)

/-- Is `c` an ASCII decimal digit? -/
def isDigitChar (c : Char) : Bool := 48 ≤ c.toNat && c.toNat ≤ 57

/-- Numeric value of an ASCII digit character. -/
def charVal (c : Char) : ℕ := c.toNat - 48

/-- Most-significant-first decimal digits of `n` (`[0]` for `0`). -/
def natDigitsMSB (n : ℕ) : List ℕ := if n = 0 then [0] else (Nat.digits 10 n).reverse

/-- Decimal rendering of a natural number as characters. -/
def natToChars (n : ℕ) : List Char := (natDigitsMSB n).map digitChar

/-- Read a digit-character string back as a natural number. -/
def parseDigits (cs : List Char) : ℕ := cs.foldl (fun a c => 10 * a + charVal c) 0

theorem charVal_digitChar {d : ℕ} (h : d < 10) : charVal (digitChar d) = d := by
  interval_cases d <;> decide

theorem isDigitChar_digitChar {d : ℕ} (h : d < 10) : isDigitChar (digitChar d) = true := by
  interval_cases d <;> decide

theorem natDigitsMSB_lt (n : ℕ) : ∀ d ∈ natDigitsMSB n, d < 10 := by
  intro d hd
  unfold natDigitsMSB at hd
  split at hd
  · simp at hd; omega
  · exact Nat.digits_lt_base (by norm_num) (List.mem_reverse.mp hd)

theorem natDigitsMSB_ne_nil (n : ℕ) : natDigitsMSB n ≠ [] := by
  unfold natDigitsMSB
  split
  · simp
  · simp [Nat.digits_ne_nil_iff_ne_zero, *]

theorem natToChars_ne_nil (n : ℕ) : natToChars n ≠ [] := by
  unfold natToChars
  simp [natDigitsMSB_ne_nil]

theorem natToChars_all_digits (n : ℕ) : ∀ c ∈ natToChars n, isDigitChar c = true := by
  intro c hc
  unfold natToChars at hc
  obtain ⟨d, hd, rfl⟩ := List.mem_map.mp hc
  exact isDigitChar_digitChar (natDigitsMSB_lt n d hd)

theorem foldl_digits (l : List ℕ) (a : ℕ) :
    l.foldl (fun a d => 10 * a + d) a = a * 10 ^ l.length + Nat.ofDigits 10 l.reverse := by
  induction l generalizing a with
  | nil => simp
  | cons d l ih =>
      simp only [List.foldl_cons, List.reverse_cons, List.length_cons]
      rw [ih, Nat.ofDigits_append]
      simp [Nat.ofDigits_singleton]
      ring

theorem readDigits_natDigitsMSB (n : ℕ) :
    (natDigitsMSB n).foldl (fun a d => 10 * a + d) 0 = n := by
  unfold natDigitsMSB
  split
  · simp [*]
  · rw [foldl_digits]
    simp [Nat.ofDigits_digits]

theorem foldl_map_digits (l : List ℕ) (hl : ∀ d ∈ l, d < 10) (a : ℕ) :
    (l.map digitChar).foldl (fun a c => 10 * a + charVal c) a =
      l.foldl (fun a d => 10 * a + d) a := by
  induction l generalizing a with
  | nil => simp
  | cons d l ih =>
      simp only [List.map_cons, List.foldl_cons]
      rw [charVal_digitChar (hl d (by simp))]
      exact ih (fun x hx => hl x (by simp [hx])) _

theorem parseDigits_natToChars (n : ℕ) : parseDigits (natToChars n) = n := by
  unfold parseDigits natToChars
  rw [foldl_map_digits _ (natDigitsMSB_lt n)]
  exact readDigits_natDigitsMSB n

theorem charVal_zero : charVal '0' = 0 := by decide

theorem parseDigits_replicate_zero_append (p : ℕ) (cs : List Char) :
    parseDigits (List.replicate p '0' ++ cs) = parseDigits cs := by
  unfold parseDigits
  rw [List.foldl_append]
  congr 1
  induction p with
  | zero => simp
  | succ p ih => simp [List.replicate_succ, charVal_zero, ih]

theorem natDigitsMSB_length_le {r k : ℕ} (hk : 1 ≤ k) (hr : r < 10 ^ k) :
    (natDigitsMSB r).length ≤ k := by
  unfold natDigitsMSB
  split
  · simpa using hk
  · rw [List.length_reverse, Nat.digits_len 10 r (by norm_num) (by assumption)]
    have := Nat.log_lt_of_lt_pow (by assumption) hr
    omega

/-! ## Plain decimal price parsing and rendering

`parsePrice` is the restriction of `str::parse::<f64>` to the plain
decimal-numeral fragment `Digit+ '.'? Digit* | '.' Digit+` (the only
strings the codec's encoder ever produces, on which it agrees with the
full parse); the full `f64::from_str` grammar — signs, exponents, and
the `inf`/`infinity`/`nan` keywords — is modelled by `parseRustF64`
below, which the mediation decode uses. `renderPrice` models
`f64::to_string` (shortest decimal form: minimal number of fraction
digits, no decimal point for integral values).
-/

/-- Continue a decimal-numeral parse after the leading digit run `ip`:
`rest` is what follows (empty, or a point and fraction digits). -/
def parseAfterInt (ip rest : List Char) : Option ℚ :=
  match rest with
  | [] => some (parseDigits ip)
  | c :: fp =>
      if c = '.' && fp.all isDigitChar && (!ip.isEmpty || !fp.isEmpty) then
        some ((parseDigits ip : ℚ) + (parseDigits fp : ℚ) / 10 ^ fp.length)
      else
        none

/-- Parse a plain decimal numeral `digits[.digits]` as a rational. -/
def parsePrice (cs : List Char) : Option ℚ :=
  if cs = [] then none
  else parseAfterInt (cs.takeWhile isDigitChar) (cs.dropWhile isDigitChar)

/-- Minimal number of decimal fraction digits of `q` (bounded search on
the decimal lengths an `f64` rendering can have). -/
def decFracLen (q : ℚ) : ℕ :=
  (((List.range 400).find? fun k => (q * (10 : ℚ) ^ k).den == 1).getD 0)

/-- Digit-level decimal rendering of the value `M / 10 ^ k`: integer part,
then (when `k > 0`) a point and exactly `k` fraction digits. -/
def renderPriceAux (M k : ℕ) : List Char :=
  if k = 0 then natToChars M
  else
    natToChars (M / 10 ^ k) ++
      '.' :: (List.replicate (k - (natDigitsMSB (M % 10 ^ k)).length) '0' ++
        natToChars (M % 10 ^ k))

/-- Shortest decimal rendering of a non-negative decimal rational. -/
def renderPrice (q : ℚ) : List Char :=
  renderPriceAux ((q * (10 : ℚ) ^ decFracLen q).num.toNat) (decFracLen q)

theorem takeWhile_all {p : Char → Bool} :
    ∀ (l : List Char), (∀ a ∈ l, p a = true) → l.takeWhile p = l := by
  intro l h
  induction l with
  | nil => rfl
  | cons a l ih =>
      rw [List.takeWhile_cons_of_pos (h a (by simp))]
      simp [ih fun x hx => h x (by simp [hx])]

theorem dropWhile_all {p : Char → Bool} :
    ∀ (l : List Char), (∀ a ∈ l, p a = true) → l.dropWhile p = [] := by
  intro l h
  induction l with
  | nil => rfl
  | cons a l ih =>
      rw [List.dropWhile_cons_of_pos (h a (by simp))]
      exact ih fun x hx => h x (by simp [hx])

theorem takeWhile_append_stop {p : Char → Bool} (A : List Char) (c : Char) (F : List Char)
    (hA : ∀ a ∈ A, p a = true) (hc : p c = false) :
    (A ++ c :: F).takeWhile p = A := by
  induction A with
  | nil =>
      rw [List.nil_append]
      exact List.takeWhile_cons_of_neg (by simp [hc])
  | cons a A ih =>
      rw [List.cons_append, List.takeWhile_cons_of_pos (hA a (by simp))]
      simp [ih fun x hx => hA x (by simp [hx])]

theorem dropWhile_append_stop {p : Char → Bool} (A : List Char) (c : Char) (F : List Char)
    (hA : ∀ a ∈ A, p a = true) (hc : p c = false) :
    (A ++ c :: F).dropWhile p = c :: F := by
  induction A with
  | nil =>
      rw [List.nil_append]
      exact List.dropWhile_cons_of_neg (by simp [hc])
  | cons a A ih =>
      rw [List.cons_append, List.dropWhile_cons_of_pos (hA a (by simp))]
      exact ih fun x hx => hA x (by simp [hx])

theorem decFracLen_spec (q : ℚ) (hk : ∃ k, k < 400 ∧ (q * (10 : ℚ) ^ k).den = 1) :
    (q * (10 : ℚ) ^ decFracLen q).den = 1 := by
  obtain ⟨k, hk400, hden⟩ := hk
  unfold decFracLen
  have hsome : ((List.range 400).find? fun k => (q * (10 : ℚ) ^ k).den == 1).isSome := by
    rw [List.find?_isSome]
    exact ⟨k, by simpa using hk400, by simpa using hden⟩
  obtain ⟨k₀, hfind⟩ := Option.isSome_iff_exists.mp hsome
  rw [hfind]
  simpa using List.find?_some hfind

/-- Parsing `renderPriceAux M k` gives back exactly `M / 10 ^ k`. -/
theorem parsePrice_renderPriceAux (M k : ℕ) :
    parsePrice (renderPriceAux M k) = some ((M : ℚ) / 10 ^ k) := by
  by_cases hk0 : k = 0
  · subst hk0
    unfold renderPriceAux
    rw [if_pos rfl]
    unfold parsePrice
    rw [if_neg (natToChars_ne_nil M)]
    rw [takeWhile_all _ (natToChars_all_digits M), dropWhile_all _ (natToChars_all_digits M)]
    simp [parseAfterInt, parseDigits_natToChars]
  · have hk1 : 1 ≤ k := Nat.one_le_iff_ne_zero.mpr hk0
    have hrender : renderPriceAux M k = natToChars (M / 10 ^ k) ++
        '.' :: (List.replicate (k - (natDigitsMSB (M % 10 ^ k)).length) '0' ++
          natToChars (M % 10 ^ k)) := by
      unfold renderPriceAux
      rw [if_neg hk0]
    have hFdigits : ∀ c ∈ List.replicate (k - (natDigitsMSB (M % 10 ^ k)).length) '0' ++
        natToChars (M % 10 ^ k), isDigitChar c = true := by
      intro c hc
      rcases List.mem_append.mp hc with hc | hc
      · rw [List.eq_of_mem_replicate hc]; decide
      · exact natToChars_all_digits _ c hc
    have hdot : isDigitChar '.' = false := by decide
    rw [hrender]
    unfold parsePrice
    rw [if_neg (by simp [natToChars_ne_nil])]
    rw [takeWhile_append_stop _ _ _ (natToChars_all_digits _) hdot,
      dropWhile_append_stop _ _ _ (natToChars_all_digits _) hdot]
    have hAne : (natToChars (M / 10 ^ k)).isEmpty = false := by
      simp [List.isEmpty_iff, natToChars_ne_nil]
    simp only [parseAfterInt]
    have hall : (List.replicate (k - (natDigitsMSB (M % 10 ^ k)).length) '0' ++
        natToChars (M % 10 ^ k)).all isDigitChar = true := List.all_eq_true.mpr hFdigits
    rw [if_pos (by simp [hall, hAne])]
    have hlenr : (natDigitsMSB (M % 10 ^ k)).length ≤ k :=
      natDigitsMSB_length_le hk1 (Nat.mod_lt _ (by positivity))
    have hFlen : (List.replicate (k - (natDigitsMSB (M % 10 ^ k)).length) '0' ++
        natToChars (M % 10 ^ k)).length = k := by
      simp only [List.length_append, List.length_replicate]
      unfold natToChars
      rw [List.length_map]
      omega
    rw [parseDigits_natToChars, parseDigits_replicate_zero_append, parseDigits_natToChars,
      hFlen]
    have hMsplit : M / 10 ^ k * 10 ^ k + M % 10 ^ k = M := Nat.div_add_mod' M (10 ^ k)
    have h10 : ((10 : ℚ) ^ k) ≠ 0 := by positivity
    congr 1
    rw [eq_div_iff h10, add_mul, div_mul_cancel₀ _ h10]
    exact_mod_cast hMsplit

/-- Parsing the shortest decimal rendering recovers the value: the
render/parse pair round-trips on non-negative decimal rationals. -/
theorem parsePrice_renderPrice (q : ℚ) (h0 : 0 ≤ q)
    (hk : ∃ k, k < 400 ∧ (q * (10 : ℚ) ^ k).den = 1) :
    parsePrice (renderPrice q) = some q := by
  have hden : (q * (10 : ℚ) ^ decFracLen q).den = 1 := decFracLen_spec q hk
  have hm0 : 0 ≤ (q * (10 : ℚ) ^ decFracLen q).num := by
    apply Rat.num_nonneg.mpr
    positivity
  have hqm : (((q * (10 : ℚ) ^ decFracLen q).num.toNat : ℚ)) = q * (10 : ℚ) ^ decFracLen q := by
    rw [← Int.cast_natCast, Int.toNat_of_nonneg hm0]
    exact (Rat.den_eq_one_iff _).mp hden
  unfold renderPrice
  rw [parsePrice_renderPriceAux, hqm]
  congr 1
  rw [mul_div_assoc, div_self (by positivity : ((10 : ℚ) ^ decFracLen q) ≠ 0), mul_one]

/-! ## Base64 (RFC 4648), modelling the `base64` crate engines

`b64Encode`/`b64Decode` model `general_purpose::STANDARD` (padded,
canonical padding required on decode, non-zero trailing bits rejected);
`b64UrlDecode` models `URL_SAFE_NO_PAD` decoding (no padding accepted).
-/

def b64StdAlphabet : List Char :=
  "ABCDEFGHIJKLMNOPQRSTUVWXYZabcdefghijklmnopqrstuvwxyz0123456789+/".data

def b64UrlAlphabet : List Char :=
  "ABCDEFGHIJKLMNOPQRSTUVWXYZabcdefghijklmnopqrstuvwxyz0123456789-_".data

def b64Char (n : ℕ) : Char := b64StdAlphabet.getD n 'A'

def b64Val (c : Char) : Option ℕ := b64StdAlphabet.findIdx? (fun x => x == c)

def b64UrlVal (c : Char) : Option ℕ := b64UrlAlphabet.findIdx? (fun x => x == c)

/-- Standard padded base64 encoding of a byte sequence. -/
def b64Encode : List ℕ → List Char
  | b0 :: b1 :: b2 :: rest =>
      b64Char (b0 / 4) :: b64Char (b0 % 4 * 16 + b1 / 16) ::
        b64Char (b1 % 16 * 4 + b2 / 64) :: b64Char (b2 % 64) :: b64Encode rest
  | [b0, b1] => [b64Char (b0 / 4), b64Char (b0 % 4 * 16 + b1 / 16), b64Char (b1 % 16 * 4), '=']
  | [b0] => [b64Char (b0 / 4), b64Char (b0 % 4 * 16), '=', '=']
  | [] => []

/-- Decode the final base64 quantum (the only place padding may occur). -/
def b64DecodeLast (c0 c1 c2 c3 : Char) : Option (List ℕ) :=
  (b64Val c0).bind fun v0 =>
  (b64Val c1).bind fun v1 =>
  if c2 = '=' then
    if c3 = '=' then
      if v1 % 16 = 0 then some [v0 * 4 + v1 / 16] else none
    else none
  else
    (b64Val c2).bind fun v2 =>
    if c3 = '=' then
      if v2 % 4 = 0 then some [v0 * 4 + v1 / 16, v1 % 16 * 16 + v2 / 4] else none
    else
      (b64Val c3).bind fun v3 =>
      some [v0 * 4 + v1 / 16, v1 % 16 * 16 + v2 / 4, v2 % 4 * 64 + v3]

/-- Standard padded base64 decoding (strict / canonical). -/
def b64Decode : List Char → Option (List ℕ)
  | [] => some []
  | c0 :: c1 :: c2 :: c3 :: rest =>
      if rest = [] then b64DecodeLast c0 c1 c2 c3
      else
        (b64Val c0).bind fun v0 =>
        (b64Val c1).bind fun v1 =>
        (b64Val c2).bind fun v2 =>
        (b64Val c3).bind fun v3 =>
        (b64Decode rest).bind fun tail =>
        some ((v0 * 4 + v1 / 16) :: (v1 % 16 * 16 + v2 / 4) :: (v2 % 4 * 64 + v3) :: tail)
  | _ => none

/-- URL-safe no-padding base64 decoding (strict: `=` is never accepted). -/
def b64UrlDecode : List Char → Option (List ℕ)
  | [] => some []
  | [c0, c1] =>
      (b64UrlVal c0).bind fun v0 =>
      (b64UrlVal c1).bind fun v1 =>
      if v1 % 16 = 0 then some [v0 * 4 + v1 / 16] else none
  | [c0, c1, c2] =>
      (b64UrlVal c0).bind fun v0 =>
      (b64UrlVal c1).bind fun v1 =>
      (b64UrlVal c2).bind fun v2 =>
      if v2 % 4 = 0 then some [v0 * 4 + v1 / 16, v1 % 16 * 16 + v2 / 4] else none
  | c0 :: c1 :: c2 :: c3 :: rest =>
      (b64UrlVal c0).bind fun v0 =>
      (b64UrlVal c1).bind fun v1 =>
      (b64UrlVal c2).bind fun v2 =>
      (b64UrlVal c3).bind fun v3 =>
      (b64UrlDecode rest).bind fun tail =>
      some ((v0 * 4 + v1 / 16) :: (v1 % 16 * 16 + v2 / 4) :: (v2 % 4 * 64 + v3) :: tail)
  | _ => none

theorem b64Val_b64Char_fin : ∀ n : Fin 64, b64Val (b64Char n.val) = some n.val := by decide

theorem b64Val_b64Char {n : ℕ} (h : n < 64) : b64Val (b64Char n) = some n :=
  b64Val_b64Char_fin ⟨n, h⟩

theorem b64Char_ne_pad_fin : ∀ n : Fin 64, b64Char n.val ≠ '=' := by decide

theorem b64Char_ne_pad {n : ℕ} (h : n < 64) : b64Char n ≠ '=' :=
  b64Char_ne_pad_fin ⟨n, h⟩

theorem b64Encode_eq_nil_iff (bs : List ℕ) : b64Encode bs = [] ↔ bs = [] := by
  match bs with
  | [] => simp [b64Encode]
  | [b0] => simp [b64Encode]
  | [b0, b1] => simp [b64Encode]
  | b0 :: b1 :: b2 :: rest => simp [b64Encode]

/-- Strict base64 decoding inverts encoding on byte sequences. -/
theorem b64Decode_b64Encode : ∀ bs : List ℕ, (∀ b ∈ bs, b < 256) →
    b64Decode (b64Encode bs) = some bs
  | [], _ => rfl
  | [b0], h => by
      have h0 : b0 < 256 := h b0 (by simp)
      have hv0 : b64Val (b64Char (b0 / 4)) = some (b0 / 4) := b64Val_b64Char (by omega)
      have hv1 : b64Val (b64Char (b0 % 4 * 16)) = some (b0 % 4 * 16) :=
        b64Val_b64Char (by omega)
      show b64Decode [b64Char (b0 / 4), b64Char (b0 % 4 * 16), '=', '='] = some [b0]
      show (if ([] : List Char) = [] then
          b64DecodeLast (b64Char (b0 / 4)) (b64Char (b0 % 4 * 16)) '=' '='
        else _) = some [b0]
      rw [if_pos rfl]
      unfold b64DecodeLast
      rw [hv0, Option.some_bind, hv1, Option.some_bind, if_pos rfl, if_pos rfl,
        if_pos (by omega)]
      have e0 : b0 / 4 * 4 + b0 % 4 * 16 / 16 = b0 := by omega
      rw [e0]
  | [b0, b1], h => by
      have h0 : b0 < 256 := h b0 (by simp)
      have h1 : b1 < 256 := h b1 (by simp)
      have hv0 : b64Val (b64Char (b0 / 4)) = some (b0 / 4) := b64Val_b64Char (by omega)
      have hv1 : b64Val (b64Char (b0 % 4 * 16 + b1 / 16)) = some (b0 % 4 * 16 + b1 / 16) :=
        b64Val_b64Char (by omega)
      have hv2 : b64Val (b64Char (b1 % 16 * 4)) = some (b1 % 16 * 4) :=
        b64Val_b64Char (by omega)
      show (if ([] : List Char) = [] then
          b64DecodeLast (b64Char (b0 / 4)) (b64Char (b0 % 4 * 16 + b1 / 16))
            (b64Char (b1 % 16 * 4)) '='
        else _) = some [b0, b1]
      rw [if_pos rfl]
      unfold b64DecodeLast
      rw [hv0, Option.some_bind, hv1, Option.some_bind,
        if_neg (b64Char_ne_pad (by omega)), hv2, Option.some_bind, if_pos rfl,
        if_pos (by omega)]
      have e0 : b0 / 4 * 4 + (b0 % 4 * 16 + b1 / 16) / 16 = b0 := by omega
      have e1 : (b0 % 4 * 16 + b1 / 16) % 16 * 16 + b1 % 16 * 4 / 4 = b1 := by omega
      rw [e0, e1]
  | b0 :: b1 :: b2 :: rest, h => by
      have h0 : b0 < 256 := h b0 (by simp)
      have h1 : b1 < 256 := h b1 (by simp)
      have h2 : b2 < 256 := h b2 (by simp)
      have hv0 : b64Val (b64Char (b0 / 4)) = some (b0 / 4) := b64Val_b64Char (by omega)
      have hv1 : b64Val (b64Char (b0 % 4 * 16 + b1 / 16)) = some (b0 % 4 * 16 + b1 / 16) :=
        b64Val_b64Char (by omega)
      have hv2 : b64Val (b64Char (b1 % 16 * 4 + b2 / 64)) = some (b1 % 16 * 4 + b2 / 64) :=
        b64Val_b64Char (by omega)
      have hv3 : b64Val (b64Char (b2 % 64)) = some (b2 % 64) := b64Val_b64Char (by omega)
      have ih := b64Decode_b64Encode rest (fun b hb => h b (by simp [hb]))
      show b64Decode (b64Char (b0 / 4) :: b64Char (b0 % 4 * 16 + b1 / 16) ::
          b64Char (b1 % 16 * 4 + b2 / 64) :: b64Char (b2 % 64) :: b64Encode rest) =
        some (b0 :: b1 :: b2 :: rest)
      by_cases hrest : rest = []
      · subst hrest
        show (if ([] : List Char) = [] then
            b64DecodeLast (b64Char (b0 / 4)) (b64Char (b0 % 4 * 16 + b1 / 16))
              (b64Char (b1 % 16 * 4 + b2 / 64)) (b64Char (b2 % 64))
          else _) = some [b0, b1, b2]
        rw [if_pos rfl]
        unfold b64DecodeLast
        rw [hv0, Option.some_bind, hv1, Option.some_bind,
          if_neg (b64Char_ne_pad (by omega)), hv2, Option.some_bind,
          if_neg (b64Char_ne_pad (by omega)), hv3, Option.some_bind]
        have e0 : b0 / 4 * 4 + (b0 % 4 * 16 + b1 / 16) / 16 = b0 := by omega
        have e1 : (b0 % 4 * 16 + b1 / 16) % 16 * 16 + (b1 % 16 * 4 + b2 / 64) / 4 = b1 := by
          omega
        have e2 : (b1 % 16 * 4 + b2 / 64) % 4 * 64 + b2 % 64 = b2 := by omega
        rw [e0, e1, e2]
      · have hne : b64Encode rest ≠ [] := fun hc => hrest ((b64Encode_eq_nil_iff rest).mp hc)
        rw [show b64Decode (b64Char (b0 / 4) :: b64Char (b0 % 4 * 16 + b1 / 16) ::
            b64Char (b1 % 16 * 4 + b2 / 64) :: b64Char (b2 % 64) :: b64Encode rest) =
          if b64Encode rest = [] then
            b64DecodeLast (b64Char (b0 / 4)) (b64Char (b0 % 4 * 16 + b1 / 16))
              (b64Char (b1 % 16 * 4 + b2 / 64)) (b64Char (b2 % 64))
          else
            (b64Val (b64Char (b0 / 4))).bind fun v0 =>
            (b64Val (b64Char (b0 % 4 * 16 + b1 / 16))).bind fun v1 =>
            (b64Val (b64Char (b1 % 16 * 4 + b2 / 64))).bind fun v2 =>
            (b64Val (b64Char (b2 % 64))).bind fun v3 =>
            (b64Decode (b64Encode rest)).bind fun tail =>
            some ((v0 * 4 + v1 / 16) :: (v1 % 16 * 16 + v2 / 4) :: (v2 % 4 * 64 + v3) :: tail)
          from rfl]
        rw [if_neg hne, hv0, Option.some_bind, hv1, Option.some_bind, hv2, Option.some_bind,
          hv3, Option.some_bind, ih, Option.some_bind]
        have e0 : b0 / 4 * 4 + (b0 % 4 * 16 + b1 / 16) / 16 = b0 := by omega
        have e1 : (b0 % 4 * 16 + b1 / 16) % 16 * 16 + (b1 % 16 * 4 + b2 / 64) / 4 = b1 := by
          omega
        have e2 : (b1 % 16 * 4 + b2 / 64) % 4 * 64 + b2 % 64 = b2 := by omega
        rw [e0, e1, e2]

/-! ## UTF-8 (modelling `std::str::from_utf8` / `String::from_utf8` and
`str::as_bytes`) -/

/-- Is `b` a UTF-8 continuation byte (`10xxxxxx`)? -/
def isUtf8Cont (b : ℕ) : Bool := 128 ≤ b && b ≤ 191

/-- Decode one UTF-8 scalar value from the front of a byte sequence
(RFC 3629: overlong forms, surrogates and out-of-range lead bytes
rejected); returns the character and the remaining bytes. -/
def utf8Step : List ℕ → Option (Char × List ℕ)
  | [] => none
  | b :: rest =>
      if b < 128 then some (Char.ofNat b, rest)
      else if 194 ≤ b && b ≤ 223 then
        match rest with
        | b1 :: rest1 =>
            if isUtf8Cont b1 then
              some (Char.ofNat ((b - 192) * 64 + (b1 - 128)), rest1)
            else none
        | [] => none
      else if 224 ≤ b && b ≤ 239 then
        match rest with
        | b1 :: b2 :: rest2 =>
            if (if b = 224 then decide (160 ≤ b1 ∧ b1 ≤ 191)
                else if b = 237 then decide (128 ≤ b1 ∧ b1 ≤ 159)
                else isUtf8Cont b1) && isUtf8Cont b2 then
              some (Char.ofNat ((b - 224) * 4096 + (b1 - 128) * 64 + (b2 - 128)), rest2)
            else none
        | _ => none
      else if 240 ≤ b && b ≤ 244 then
        match rest with
        | b1 :: b2 :: b3 :: rest3 =>
            if (if b = 240 then decide (144 ≤ b1 ∧ b1 ≤ 191)
                else if b = 244 then decide (128 ≤ b1 ∧ b1 ≤ 143)
                else isUtf8Cont b1) && isUtf8Cont b2 && isUtf8Cont b3 then
              some (Char.ofNat
                ((b - 240) * 262144 + (b1 - 128) * 4096 + (b2 - 128) * 64 + (b3 - 128)), rest3)
            else none
        | _ => none
      else none

set_option maxRecDepth 4000 in
/-- A successful `utf8Step` consumes at least one byte (so running the
loop with `length` as fuel, as `utf8Decode` does, never exhausts it). -/
theorem utf8Step_length : ∀ (bs : List ℕ) (c : Char) (rem : List ℕ),
    utf8Step bs = some (c, rem) → rem.length < bs.length := by
  intro bs c rem h
  match bs with
  | [] => simp [utf8Step] at h
  | b :: rest =>
      simp only [utf8Step] at h
      repeat' split at h
      all_goals (cases h <;> simp only [List.length_cons] <;> omega)

/-- Fuel-driven UTF-8 decoding loop; each iteration consumes at least
one byte, so `fuel = bs.length` (as used by `utf8Decode`) is always
sufficient. -/
def utf8DecodeF : ℕ → List ℕ → Option (List Char)
  | _, [] => some []
  | 0, _ :: _ => none
  | fuel + 1, b :: rest =>
      match utf8Step (b :: rest) with
      | some (c, rem) => (utf8DecodeF fuel rem).bind fun cs => some (c :: cs)
      | none => none

/-- Strict UTF-8 decoding of a byte sequence. -/
def utf8Decode (bs : List ℕ) : Option (List Char) := utf8DecodeF bs.length bs

/-- UTF-8 encoding of one character (`str::as_bytes`, per scalar value). -/
def utf8EncodeChar (c : Char) : List ℕ :=
  let n := c.toNat
  if n < 128 then [n]
  else if n < 2048 then [192 + n / 64, 128 + n % 64]
  else if n < 65536 then [224 + n / 4096, 128 + n / 64 % 64, 128 + n % 64]
  else [240 + n / 262144, 128 + n / 4096 % 64, 128 + n / 64 % 64, 128 + n % 64]

/-- UTF-8 encoding of a character sequence. -/
def utf8Encode : List Char → List ℕ
  | [] => []
  | c :: cs => utf8EncodeChar c ++ utf8Encode cs

theorem utf8Encode_ascii (s : List Char) (h : ∀ c ∈ s, c.toNat < 128) :
    utf8Encode s = s.map Char.toNat := by
  induction s with
  | nil => rfl
  | cons c cs ih =>
      have hc : c.toNat < 128 := h c (by simp)
      show utf8EncodeChar c ++ utf8Encode cs = c.toNat :: cs.map Char.toNat
      rw [ih fun x hx => h x (by simp [hx])]
      unfold utf8EncodeChar
      simp [hc]

theorem utf8Decode_map_toNat_ascii (s : List Char) (h : ∀ c ∈ s, c.toNat < 128) :
    utf8Decode (s.map Char.toNat) = some s := by
  induction s with
  | nil => rfl
  | cons c cs ih =>
      have hc : c.toNat < 128 := h c (by simp)
      show utf8DecodeF (c.toNat :: cs.map Char.toNat).length
        (c.toNat :: cs.map Char.toNat) = some (c :: cs)
      rw [List.length_cons]
      simp only [utf8DecodeF]
      rw [show utf8Step (c.toNat :: cs.map Char.toNat) =
        some (Char.ofNat c.toNat, cs.map Char.toNat) from by simp [utf8Step, hc]]
      have ih2 := ih fun x hx => h x (by simp [hx])
      unfold utf8Decode at ih2
      rw [List.length_map] at ih2
      rw [List.length_map]
      show (utf8DecodeF cs.length (List.map Char.toNat cs)).bind
          (fun x => some (Char.ofNat c.toNat :: x)) = some (c :: cs)
      rw [ih2, Option.some_bind, Char.ofNat_toNat]

/-! ## The price codec (`auction.rs`: `encode_aps_price` / `decode_aps_price`)

The mock encodes a price by rendering it in decimal (`f64::to_string`)
and base64-encoding the UTF-8 bytes; decoding is the reverse pipeline,
failing (`None`) at any stage.
-/

namespace Auction

/-- `auction.rs::encode_aps_price`: base64 of the decimal rendering. -/
def encode_aps_price (price : ℚ) : List Char :=
  b64Encode (utf8Encode (renderPrice price))

/-- `auction.rs::decode_aps_price`: base64-decode, UTF-8-decode, parse;
`none` on any failure. -/
def decode_aps_price (encoded : List Char) : Option ℚ :=
  (b64Decode encoded).bind fun decoded =>
  (utf8Decode decoded).bind fun priceStr =>
  parsePrice priceStr

end Auction

theorem renderPriceAux_ascii (M k : ℕ) : ∀ c ∈ renderPriceAux M k, c.toNat < 128 := by
  intro c hc
  have hdigit : ∀ x : Char, isDigitChar x = true → x.toNat < 128 := by
    intro x hx
    unfold isDigitChar at hx
    simp only [Bool.and_eq_true, decide_eq_true_eq] at hx
    omega
  unfold renderPriceAux at hc
  split at hc
  · exact hdigit c (natToChars_all_digits M c hc)
  · rcases List.mem_append.mp hc with hc | hc
    · exact hdigit c (natToChars_all_digits _ c hc)
    · rcases List.mem_cons.mp hc with rfl | hc
      · decide
      · rcases List.mem_append.mp hc with hc | hc
        · rw [List.eq_of_mem_replicate hc]; decide
        · exact hdigit c (natToChars_all_digits _ c hc)

theorem renderPrice_ascii (q : ℚ) : ∀ c ∈ renderPrice q, c.toNat < 128 :=
  renderPriceAux_ascii _ _

/-- The full codec pipeline round-trips on non-negative decimal prices. -/
theorem decode_encode_aps_price (q : ℚ) (h0 : 0 ≤ q)
    (hk : ∃ k, k < 400 ∧ (q * (10 : ℚ) ^ k).den = 1) :
    Auction.decode_aps_price (Auction.encode_aps_price q) = some q := by
  unfold Auction.encode_aps_price Auction.decode_aps_price
  have hascii := renderPrice_ascii q
  have hbytes : ∀ b ∈ utf8Encode (renderPrice q), b < 256 := by
    rw [utf8Encode_ascii _ hascii]
    intro b hb
    obtain ⟨c, hc, rfl⟩ := List.mem_map.mp hb
    exact lt_trans (hascii c hc) (by norm_num)
  rw [b64Decode_b64Encode _ hbytes, Option.some_bind, utf8Encode_ascii _ hascii,
    utf8Decode_map_toNat_ascii _ hascii, Option.some_bind]
  exact parsePrice_renderPrice q h0 hk

/-! ## Standard ad sizes and CPM pricing (`auction.rs`)

The Rust code keys a compile-time `phf` map by the string `"WxH"`;
since `"WxH"` rendering is injective on dimension pairs, the map is
modelled extensionally as an association list keyed by the pair, with
plain first-match lookup. -/

namespace Auction

/-- Default CPM for non-standard sizes (base price before area adjustment). -/
def DEFAULT_CPM : ℚ := 1.50

/-- Maximum area-based bonus added to `DEFAULT_CPM` for non-standard sizes. -/
def MAX_AREA_BONUS : ℚ := 3.00

/-- `auction.rs::SIZE_MAP`: standard sizes and their fixed CPMs. -/
def SIZE_MAP : List ((ℤ × ℤ) × ℚ) :=
  [((300, 250), 2.50), ((336, 280), 2.60), ((728, 90), 3.00), ((970, 90), 3.80),
   ((160, 600), 3.20), ((300, 600), 3.50), ((970, 250), 4.20), ((468, 60), 2.00),
   ((320, 50), 1.80), ((300, 50), 1.70), ((320, 100), 2.20), ((320, 480), 2.80),
   ((480, 320), 2.80)]

/-- First-match association-list lookup (the `phf` map `get`). -/
def lookupSize : List ((ℤ × ℤ) × ℚ) → ℤ → ℤ → Option ℚ
  | [], _, _ => none
  | (key, cpm) :: rest, w, h => if (w, h) = key then some cpm else lookupSize rest w h

/-- `auction.rs::is_standard_size`. -/
def is_standard_size (w h : ℤ) : Bool := (lookupSize SIZE_MAP w h).isSome

/-- `f64::round`: round half away from zero. -/
def f64Round (q : ℚ) : ℚ := if 0 ≤ q then ((⌊q + 1 / 2⌋ : ℤ) : ℚ) else ((-⌊-q + 1 / 2⌋ : ℤ) : ℚ)

/-- `auction.rs::get_cpm`: table CPM for standard sizes, otherwise
`round((DEFAULT_CPM + min(area / 100000, MAX_AREA_BONUS)) * 100) / 100`. -/
def get_cpm (w h : ℤ) : ℚ :=
  match lookupSize SIZE_MAP w h with
  | some cpm => cpm
  | none =>
      f64Round ((DEFAULT_CPM + min (((w * h : ℤ) : ℚ) / 100000) MAX_AREA_BONUS) * 100) / 100

end Auction

/-- The 13 standard sizes as enumerated by the claim/spec. -/
def claimStandardSizes : List (ℤ × ℤ) :=
  [(300, 250), (336, 280), (728, 90), (970, 90), (970, 250), (160, 600), (300, 600),
   (468, 60), (320, 50), (300, 50), (320, 100), (320, 480), (480, 320)]

/-- The fallback price as worded by the claim/spec:
`1.50 + min(w*h/100000, 3.00)`, rounded (half-up) to 2 decimals. -/
def claimFallbackCpm (w h : ℤ) : ℚ :=
  ((⌊(1.5 + min ((w : ℚ) * (h : ℚ) / 100000) 3) * 100 + 1 / 2⌋ : ℤ) : ℚ) / 100

theorem lookupSize_none_of_not_mem (w h : ℤ) (hmem : (w, h) ∉ claimStandardSizes) :
    Auction.lookupSize Auction.SIZE_MAP w h = none := by
  simp only [claimStandardSizes, List.mem_cons, List.not_mem_nil, or_false, not_or] at hmem
  obtain ⟨h1, h2, h3, h4, h5, h6, h7, h8, h9, h10, h11, h12, h13⟩ := hmem
  simp only [Auction.SIZE_MAP, Auction.lookupSize]
  rw [if_neg h1, if_neg h2, if_neg h3, if_neg h4, if_neg h5, if_neg h6, if_neg h7,
    if_neg h8, if_neg h9, if_neg h10, if_neg h11, if_neg h12, if_neg h13]

/-! ## JSON values (the `serde_json::Value` fragment the core reads) -/

inductive Json where
  | null
  | bool (b : Bool)
  | num (q : ℚ)
  | str (s : String)
  | arr (items : List Json)
  | obj (fields : List (String × Json))

/-- `Value::get(key)` on objects, `None` on other variants. -/
def Json.get : Json → String → Option Json
  | .obj fields, key => (fields.find? (fun f => f.1 == key)).map (fun f => f.2)
  | _, _ => none

/-- `Value::as_str`. -/
def Json.as_str : Json → Option String
  | .str s => some s
  | _ => none

/-! ## OpenRTB data model (`openrtb.rs`: the fields the core reads;
fields the core never touches are omitted from the embedding) -/

/-- Fresh-id supply standing in for `Uuid::now_v7().simple()`: the
`n`-th generated id.  Injective, so distinct draws are distinct ids. -/
def genId (n : ℕ) : String := String.mk (natToChars n)

theorem genId_injective : Function.Injective genId := by
  intro m n h
  have hd : natToChars m = natToChars n := congrArg String.data h
  have := parseDigits_natToChars m
  rw [hd, parseDigits_natToChars] at this
  exact this.symm

structure Format where
  w : ℤ
  h : ℤ
deriving DecidableEq

structure Banner where
  w : Option ℤ := none
  h : Option ℤ := none
  format : Option (List Format) := none
deriving DecidableEq

structure ExtMocktioneer where
  bid : Option ℚ := none
deriving DecidableEq

structure ImpExt where
  mocktioneer : Option ExtMocktioneer := none
deriving DecidableEq

structure Imp where
  id : String := ""
  banner : Option Banner := none
  ext : Option ImpExt := none
deriving DecidableEq

structure Site where
  domain : Option String := none
deriving DecidableEq

structure OpenRTBRequest where
  id : String := ""
  imp : List Imp := []
  site : Option Site := none
  ext : Option Json := none

inductive MediaType where
  | banner
  | video
  | audio
  | native
deriving DecidableEq

/-- Creative markup: either markup carried on the input bid, or the
iframe markup produced by the external `render::iframe_html` capability
(modelled freely by its arguments, per the interface contract that the
renderer is pure in them). -/
inductive Adm where
  | given (html : String)
  | iframe (host : String) (crid : String) (w h : ℤ) (bid : Option ℚ)
deriving DecidableEq

structure Bid where
  id : String
  impid : String
  price : ℚ
  adm : Option Adm := none
  w : Option ℤ := none
  h : Option ℤ := none
  crid : Option String := none
  adomain : Option (List String) := none
  mtype : Option MediaType := none
  /-- `bid.ext`: the `mocktioneer.bid` override echoed back, when present. -/
  ext : Option ℚ := none
deriving DecidableEq

structure SeatBid where
  seat : Option String := none
  bid : List Bid := []
deriving DecidableEq

structure OpenRTBResponse where
  id : String
  seatbid : List SeatBid := []
  cur : Option String := none
deriving DecidableEq

/-! ## Bid synthesis (`auction.rs`) -/

namespace Auction

/-- `auction.rs::size_from_imp`: prefer `imp.banner.w/h`, fall back to
`banner.format[0]`, default 300x250. -/
def size_from_imp (imp : Imp) : ℤ × ℤ :=
  match imp.banner with
  | some banner =>
      match banner.w, banner.h with
      | some w, some h => (w, h)
      | _, _ =>
          match banner.format with
          | some (fmt0 :: _) => (fmt0.w, fmt0.h)
          | _ => (300, 250)
  | none => (300, 250)

/-- `auction.rs::standard_or_default`. -/
def standard_or_default (p : ℤ × ℤ) : ℤ × ℤ :=
  if is_standard_size p.1 p.2 then p else (300, 250)

/-- One synthesized bid of `build_openrtb_response` (`i` is the index of
the impression, used to draw the fresh bid id). -/
def synthBid (base_host : String) (i : ℕ) (imp : Imp) : Bid :=
  let impid := if imp.id = "" then "1" else imp.id
  let wh := standard_or_default (size_from_imp imp)
  let crid := "mocktioneer-" ++ impid
  let custom_bid := (imp.ext.bind fun e => e.mocktioneer).bind fun m => m.bid
  let price := custom_bid.getD (get_cpm wh.1 wh.2)
  { id := genId i
    impid := impid
    price := price
    adm := some (Adm.iframe base_host crid wh.1 wh.2 custom_bid)
    crid := some crid
    w := some wh.1
    h := some wh.2
    mtype := some MediaType.banner
    adomain := some ["example.com"]
    ext := custom_bid }

/-- `auction.rs::build_openrtb_response`: one bid per impression, in
order, under the single seat `"mocktioneer"`. -/
def build_openrtb_response (req : OpenRTBRequest) (base_host : String) : OpenRTBResponse :=
  { id := if req.id = "" then "req" else req.id
    cur := some "USD"
    seatbid := [{ seat := some "mocktioneer"
                  bid := req.imp.enum.map fun p => synthBid base_host p.1 p.2 }] }

end Auction

/-! ## Mediation engine (`mediation.rs`) -/

structure MediationBid where
  imp_id : String
  price : Option ℚ := none
  encoded_price : Option String := none
  adm : Option String := none
  w : ℤ
  h : ℤ
  crid : Option String := none
  adomain : Option (List String) := none
deriving DecidableEq

structure BidderResponse where
  bidder : String
  bids : List MediationBid
deriving DecidableEq

structure MediationConfig where
  price_floor : Option ℚ := none
deriving DecidableEq

structure MediationExt where
  bidder_responses : List BidderResponse
  config : Option MediationConfig := none
deriving DecidableEq

structure MediationRequest where
  id : String
  imp : List Imp
  ext : MediationExt
deriving DecidableEq

/-- Bid with resolved (decoded) price for mediation comparison. -/
structure ResolvedBid where
  bidder : String
  bid : MediationBid
  resolved_price : ℚ
deriving DecidableEq

/-! ## The full `str::parse::<f64>` grammar

`f64::from_str` accepts `Sign? ('inf' | 'infinity' | 'nan' | Number)`
(keywords ASCII-case-insensitive) with
`Number ::= Digit+ '.'? Digit* Exp? | '.' Digit+ Exp?` and
`Exp ::= ('e'|'E') Sign? Digit+`; it never fails on a grammatical input
(overflow yields infinity). Finite numerals denote exact rationals
under the f64-as-ℚ convention. The three non-finite values have no
rational counterpart; they are mapped to sentinels outside the finite
`f64` range (`|x| < 2^1024`): `+∞ ↦ 2^1100`, `-∞ ↦ -2^1100`, and
`NaN ↦ -2^1100` as well — inside `mediate_auction` a price is only ever
used in the retain comparison `price >= floor` and, if it survives, in
winner selection; `NaN >= floor` is false for every floor, exactly like
`-∞ >= floor` at every f64-representable floor, so a NaN bid is dropped
at the retain in both the program and the model and the sentinels are
observationally faithful for f64-representable inputs. -/

/-- A rational above every finite `f64` (whose maximum is below `2^1024`). -/
def F64_HUGE : ℚ := 2 ^ 1100

/-- Parse the exponent suffix `Sign? Digit+` of a float literal. -/
def parseExp (cs : List Char) : Option ℤ :=
  match cs with
  | [] => none
  | '+' :: ds => if ds ≠ [] ∧ ds.all isDigitChar then some (parseDigits ds) else none
  | '-' :: ds => if ds ≠ [] ∧ ds.all isDigitChar then some (-(parseDigits ds : ℤ)) else none
  | ds => if ds.all isDigitChar then some (parseDigits ds) else none

/-- Parse an unsigned `Number` (mantissa with optional `e`/`E` exponent)
as an exact rational. -/
def parseNumberExp (cs : List Char) : Option ℚ :=
  match cs.dropWhile (fun c => !(c = 'e' || c = 'E')) with
  | [] => parsePrice cs
  | _ :: es =>
      match parsePrice (cs.takeWhile fun c => !(c = 'e' || c = 'E')), parseExp es with
      | some m, some e => some (m * (10 : ℚ) ^ e)
      | _, _ => none

/-- The signless part of the float parse (`sgn` is the parsed sign):
the case-insensitive keywords or a decimal numeral with optional
exponent. -/
def parseRustF64Body (sgn : ℚ) (body : List Char) : Option ℚ :=
  let lower := body.map Char.toLower
  if lower = "inf".data ∨ lower = "infinity".data then
    some (sgn * F64_HUGE)
  else if lower = "nan".data then
    some (-F64_HUGE)
  else
    (parseNumberExp body).map fun q => sgn * q

/-- `str::parse::<f64>` in full: optional sign, then keywords or
numeral. `none` exactly on the strings Rust's parse rejects. -/
def parseRustF64 (cs : List Char) : Option ℚ :=
  match cs with
  | '+' :: body => parseRustF64Body 1 body
  | '-' :: body => parseRustF64Body (-1) body
  | body => parseRustF64Body 1 body

namespace Mediation

/-- `mediation.rs::decode_aps_price` (the `Result`-returning variant):
base64-decode, UTF-8-decode, parse with the full `f64::from_str`
grammar; each stage failing with its own error message. -/
def decode_aps_price (encoded : String) : Except String ℚ :=
  match b64Decode encoded.data with
  | none => .error ("Failed to base64 decode price " ++ encoded)
  | some decoded =>
      match utf8Decode decoded with
      | none => .error "Failed to convert decoded price to UTF-8"
      | some priceStr =>
          match parseRustF64 priceStr with
          | none => .error "Failed to parse price as f64"
          | some price => .ok price

/-- Resolve the price of one bid: decoded `encoded_price` when present,
else plain `price`, else a hard error. -/
def resolve_price (bidder : String) (bid : MediationBid) : Except String ℚ :=
  match bid.encoded_price with
  | some encoded =>
      match decode_aps_price encoded with
      | .ok price => .ok price
      | .error e =>
          .error ("Failed to decode price for impression " ++ bid.imp_id ++ ": " ++ e)
  | none =>
      match bid.price with
      | some price => .ok price
      | none =>
          .error ("Bid for impression " ++ bid.imp_id ++ " from " ++ bidder ++ " has no price")

/-- Does this bid fail price resolution (the only fatal condition)? -/
def unresolvable (bid : MediationBid) : Bool :=
  match bid.encoded_price with
  | some encoded =>
      match decode_aps_price encoded with
      | .ok _ => false
      | .error _ => true
  | none => bid.price.isNone

/-- `bids_by_imp.entry(imp_id).or_default().push(rb)`: association-list
grouping, keys in first-insertion order, values in insertion order. -/
def pushBid (groups : List (String × List ResolvedBid)) (impId : String) (rb : ResolvedBid) :
    List (String × List ResolvedBid) :=
  match groups with
  | [] => [(impId, [rb])]
  | (k, vs) :: rest =>
      if k = impId then (k, vs ++ [rb]) :: rest else (k, vs) :: pushBid rest impId rb

/-- Inner collection loop: resolve and group every bid of one bidder;
fail fast on the first unresolvable price. -/
def collectFromBidder (bidder : String) :
    List MediationBid → List (String × List ResolvedBid) →
      Except String (List (String × List ResolvedBid))
  | [], groups => .ok groups
  | bid :: bids, groups =>
      match resolve_price bidder bid with
      | .error e => .error e
      | .ok price => collectFromBidder bidder bids (pushBid groups bid.imp_id ⟨bidder, bid, price⟩)

/-- Outer collection loop over all bidder responses. -/
def collectAll :
    List BidderResponse → List (String × List ResolvedBid) →
      Except String (List (String × List ResolvedBid))
  | [], groups => .ok groups
  | br :: brs, groups =>
      match collectFromBidder br.bidder br.bids groups with
      | .error e => .error e
      | .ok groups2 => collectAll brs groups2

/-- The left-to-right `reduce` of winner selection: replace the current
leader only on a strictly greater resolved price. -/
def pickWinner (first : ResolvedBid) (rest : List ResolvedBid) : ResolvedBid :=
  rest.foldl
    (fun acc current =>
      if acc.resolved_price < current.resolved_price then current else acc)
    first

/-- Per-impression winner selection: drop bids strictly below the floor
(price equal to the floor is retained); skip the impression when nothing
remains; otherwise reduce. -/
def selectWinners (floor : ℚ) :
    List (String × List ResolvedBid) → List (String × ResolvedBid)
  | [] => []
  | (impId, bids) :: rest =>
      match bids.filter (fun rb => floor ≤ rb.resolved_price) with
      | [] => selectWinners floor rest
      | b :: bs => (impId, pickWinner b bs) :: selectWinners floor rest

/-- Creative materialization: keep existing markup, otherwise generate
the iframe creative (crid falls back to the impression id). -/
def winnerAdm (base_host : String) (impId : String) (bid : MediationBid) (price : ℚ) : Adm :=
  match bid.adm with
  | some existing => Adm.given existing
  | none => Adm.iframe base_host (bid.crid.getD impId) bid.w bid.h (some price)

/-- The output OpenRTB bid for one winner (`idx` draws the fresh id). -/
def buildBid (base_host : String) (idx : ℕ) (impId : String) (rb : ResolvedBid) : Bid :=
  { id := genId idx
    impid := impId
    price := rb.resolved_price
    adm := some (winnerAdm base_host impId rb.bid rb.resolved_price)
    w := some rb.bid.w
    h := some rb.bid.h
    crid := rb.bid.crid
    adomain := rb.bid.adomain
    mtype := some MediaType.banner
    ext := none }

/-- `seats.entry(bidder).or_default().push(bid)`. -/
def pushSeat (seats : List (String × List Bid)) (bidder : String) (b : Bid) :
    List (String × List Bid) :=
  match seats with
  | [] => [(bidder, [b])]
  | (k, vs) :: rest =>
      if k = bidder then (k, vs ++ [b]) :: rest else (k, vs) :: pushSeat rest bidder b

/-- Group the winning bids by winning bidder (seat). -/
def groupSeats (base_host : String) :
    List (String × ResolvedBid) → ℕ → List (String × List Bid) → List (String × List Bid)
  | [], _, seats => seats
  | (impId, rb) :: rest, idx, seats =>
      groupSeats base_host rest (idx + 1) (pushSeat seats rb.bidder (buildBid base_host idx impId rb))

/-- `mediation.rs::build_openrtb_response`: winning bids grouped into
seats named by the winning bidder. -/
def build_openrtb_response (id : String) (winning : List (String × ResolvedBid))
    (base_host : String) : OpenRTBResponse :=
  { id := id
    cur := some "USD"
    seatbid := (groupSeats base_host winning 0 []).map fun s =>
      { seat := some s.1, bid := s.2 } }

/-- `mediation.rs::mediate_auction`: resolve and group all bids (fail
fast on an unresolvable price), apply the floor (default 0), pick one
winner per impression, and assemble the response. -/
def mediate_auction (request : MediationRequest) (base_host : String) :
    Except String OpenRTBResponse :=
  match collectAll request.ext.bidder_responses [] with
  | .error e => .error e
  | .ok groups =>
      let price_floor := (request.ext.config.bind fun c => c.price_floor).getD 0
      .ok (build_openrtb_response request.id (selectWinners price_floor groups) base_host)

end Mediation

/-! ## APS TAM response builder (`aps.rs` types, `auction.rs::build_aps_response`) -/

structure ApsSlot where
  slot_id : String
  sizes : List (ℕ × ℕ)
  slot_name : Option String := none
deriving DecidableEq

structure ApsBidRequest where
  pub_id : String
  slots : List ApsSlot
  page_url : Option String := none
  user_agent : Option String := none
  timeout : Option ℕ := none
deriving DecidableEq

structure ApsSlotResponse where
  slot_id : String
  size : String
  crid : Option String := none
  media_type : Option String := none
  fif : Option String := none
  targeting : List String := []
  meta : List String := []
  amzniid : Option String := none
  amznbid : Option String := none
  amznp : Option String := none
  amznsz : Option String := none
  amznactt : Option String := none
deriving DecidableEq

structure ApsContextual where
  slots : List ApsSlotResponse
  host : Option String := none
  status : Option String := none
  cfe : Option Bool := none
  ev : Option Bool := none
  cfn : Option String := none
  cb : Option String := none
  cmp : Option String := none
deriving DecidableEq

structure ApsBidResponse where
  contextual : ApsContextual
deriving DecidableEq

namespace Auction

/-- The `"WxH"` size string. -/
def sizeStr (w h : ℕ) : String := String.mk (natToChars w ++ 'x' :: natToChars h)

/-- `Iterator::max_by` on `(w, h, price)` triples compared by price:
fold keeping the later element on ties (Rust `max_by` returns the last
maximal element). -/
def maxByPrice (l : List (ℕ × ℕ × ℚ)) : Option (ℕ × ℕ × ℚ) :=
  l.foldl
    (fun acc x =>
      match acc with
      | none => some x
      | some a => if a.2.2 ≤ x.2.2 then some x else some a)
    none

/-- The standard-size candidates of a slot, with their CPMs. -/
def slotCandidates (slot : ApsSlot) : List (ℕ × ℕ × ℚ) :=
  slot.sizes.filterMap fun p =>
    if is_standard_size (p.1 : ℤ) (p.2 : ℤ) then
      some (p.1, p.2, get_cpm (p.1 : ℤ) (p.2 : ℤ))
    else none

/-- The slot loop of `build_aps_response`; `ctr` threads the fresh-id
supply (two draws per emitted slot: impression id, then creative id).
Slots with no standard size are skipped and draw no ids. -/
def buildSlots : List ApsSlot → ℕ → List ApsSlotResponse
  | [], _ => []
  | slot :: rest, ctr =>
      match maxByPrice (slotCandidates slot) with
      | none => buildSlots rest ctr
      | some (w, h, price) =>
          { slot_id := slot.slot_id
            size := sizeStr w h
            crid := some (genId (ctr + 1) ++ "-mocktioneer")
            media_type := some "d"
            fif := some "1"
            targeting := ["amzniid", "amznp", "amznsz", "amznbid", "amznactt"]
            meta := ["slotID", "mediaType", "size"]
            amzniid := some (genId ctr)
            amznbid := some (String.mk (encode_aps_price price))
            amznp := some (String.mk (encode_aps_price price))
            amznsz := some (sizeStr w h)
            amznactt := some "OPEN" } :: buildSlots rest (ctr + 2)

/-- `auction.rs::build_aps_response`. -/
def build_aps_response (req : ApsBidRequest) (base_host : String) : ApsBidResponse :=
  { contextual :=
      { slots := buildSlots req.slots 0
        host := some ("https://" ++ base_host)
        status := some "ok"
        cfe := some true
        ev := some true
        cfn := some "bao-csm/direct/csm_othersv6.js"
        cb := some "6"
        cmp := none } }

end Auction

/-! ## Signature verification (`verification.rs`)

The Ed25519 primitive (`ed25519_dalek`) and the network fetch are
external collaborators: the primitive is a parameter (`Ed25519Impl`),
and `get_cached_jwks` / `verify_request_id_signature` take the outcome
of the fetch as an argument. -/

structure JwkKey where
  kid : String
  x : String
deriving DecidableEq

structure JwksResponse where
  keys : List JwkKey
deriving DecidableEq

inductive VerificationError where
  | KeyNotFound (msg : String)
  | InvalidSignature (msg : String)
  | SignatureVerificationFailed
  | HttpError (msg : String)
  | NoJwksDomain
deriving DecidableEq

/-- The `thiserror` display strings of `VerificationError`. -/
def VerificationError.toMessage : VerificationError → String
  | .KeyNotFound msg => "Key not found: " ++ msg
  | .InvalidSignature msg => "Invalid signature: " ++ msg
  | .SignatureVerificationFailed => "Signature verification failed"
  | .HttpError msg => "HTTP error: " ++ msg
  | .NoJwksDomain => "No domain for JWKS verification"

/-- The `ed25519_dalek` primitive, as consumed by the code:
`VerifyingKey::from_bytes` (given exactly 32 bytes, may still reject a
non-canonical point) and `verify` on raw message/signature bytes.
`Signature::from_bytes` is infallible and needs no model. -/
structure Ed25519Impl (K : Type) where
  fromBytes : List ℕ → Option K
  verify : K → List ℕ → List ℕ → Bool

/-- Duration of JWKS cache validity: 10 minutes, in seconds. -/
def JWKS_CACHE_TTL : ℕ := 10 * 60

/-- The well-known JWKS URL fetched by `fetch_jwks`. -/
def jwksUrl (domain : String) : String :=
  "http://" ++ domain ++ "/.well-known/ts.jwks.json"

structure JwksCache where
  jwks : JwksResponse
  fetched_at : ℕ
deriving DecidableEq

/-- Association-list lookup of the domain-keyed cache map. -/
def cacheLookup : List (String × JwksCache) → String → Option JwksCache
  | [], _ => none
  | (k, v) :: rest, domain => if k = domain then some v else cacheLookup rest domain

/-- `HashMap::insert`: replace the entry wholesale, or append. -/
def cacheInsert : List (String × JwksCache) → String → JwksCache → List (String × JwksCache)
  | [], domain, entry => [(domain, entry)]
  | (k, v) :: rest, domain, entry =>
      if k = domain then (domain, entry) :: rest else (k, v) :: cacheInsert rest domain entry

/-- `verification.rs::get_cached_jwks`, with the ambient state passed
explicitly: `fetchResult` is the outcome `fetch_jwks(domain)` would
produce, `now` the current instant (seconds), `cache` the global map.
Returns the result, the updated cache, and the list of URLs fetched. -/
def get_cached_jwks (fetchResult : Except VerificationError JwksResponse) (now : ℕ)
    (cache : List (String × JwksCache)) (domain : String) :
    Except VerificationError JwksResponse × List (String × JwksCache) × List String :=
  match cacheLookup cache domain with
  | some cached =>
      if now - cached.fetched_at < JWKS_CACHE_TTL then (.ok cached.jwks, cache, [])
      else
        match fetchResult with
        | .ok jwks => (.ok jwks, cacheInsert cache domain ⟨jwks, now⟩, [jwksUrl domain])
        | .error e => (.error e, cache, [jwksUrl domain])
  | none =>
      match fetchResult with
      | .ok jwks => (.ok jwks, cacheInsert cache domain ⟨jwks, now⟩, [jwksUrl domain])
      | .error e => (.error e, cache, [jwksUrl domain])

/-- `verification.rs::find_public_key`. -/
def find_public_key (jwks : JwksResponse) (kid : String) : Except VerificationError String :=
  match jwks.keys.find? (fun k => k.kid == kid) with
  | some k => .ok k.x
  | none => .error (.KeyNotFound ("Key " ++ kid ++ " not found in JWKS"))

/-- `URL_SAFE_NO_PAD.decode` of the stored public key, on failure the
invalid-public-key-encoding error. -/
def decodePublicKey (public_key_b64 : String) : Except VerificationError (List ℕ) :=
  match b64UrlDecode public_key_b64.data with
  | none => .error (.InvalidSignature "Invalid public key encoding")
  | some bytes => .ok bytes

/-- The exact-32-byte length check on the decoded public key. -/
def checkKeyLength (bytes : List ℕ) : Except VerificationError (List ℕ) :=
  if bytes.length ≠ 32 then .error (.InvalidSignature "Invalid public key length: expected 32")
  else .ok bytes

/-- `VerifyingKey::from_bytes` (may reject a non-canonical point). -/
def parseVerifyingKey {K : Type} (ed : Ed25519Impl K) (bytes : List ℕ) :
    Except VerificationError K :=
  match ed.fromBytes bytes with
  | none => .error (.InvalidSignature "Invalid public key")
  | some k => .ok k

/-- `URL_SAFE_NO_PAD.decode` of the supplied signature. -/
def decodeSignature (signature_b64 : String) : Except VerificationError (List ℕ) :=
  match b64UrlDecode signature_b64.data with
  | none => .error (.InvalidSignature "Invalid signature encoding")
  | some bytes => .ok bytes

/-- The exact-64-byte length check on the decoded signature. -/
def checkSigLength (bytes : List ℕ) : Except VerificationError (List ℕ) :=
  if bytes.length ≠ 64 then .error (.InvalidSignature "Invalid signature length: expected 64")
  else .ok bytes

/-- `verification.rs::verify_ed25519_signature` (the `?` chain). -/
def verify_ed25519_signature {K : Type} (ed : Ed25519Impl K)
    (public_key_b64 signature_b64 message : String) : Except VerificationError Unit :=
  (decodePublicKey public_key_b64).bind fun public_key_bytes =>
  (checkKeyLength public_key_bytes).bind fun key_array =>
  (parseVerifyingKey ed key_array).bind fun verifying_key =>
  (decodeSignature signature_b64).bind fun signature_bytes =>
  (checkSigLength signature_bytes).bind fun sig_array =>
  if ed.verify verifying_key (utf8Encode message.data) sig_array then .ok ()
  else .error .SignatureVerificationFailed

/-- Extraction of `ext.trusted_server`. -/
def getTrustedServer (ext : Option Json) : Except VerificationError Json :=
  match ext.bind fun e => e.get "trusted_server" with
  | none => .error (.InvalidSignature "Missing ext.trusted_server")
  | some obj => .ok obj

/-- Extraction of the `signature` string of the trusted-server block. -/
def getSignatureField (ext_obj : Json) : Except VerificationError String :=
  match (ext_obj.get "signature").bind Json.as_str with
  | none => .error (.InvalidSignature "Missing ext.trusted_server.signature")
  | some s => .ok s

/-- Extraction of the `kid` string of the trusted-server block. -/
def getKidField (ext_obj : Json) : Except VerificationError String :=
  match (ext_obj.get "kid").bind Json.as_str with
  | none => .error (.KeyNotFound "Missing ext.trusted_server.kid")
  | some s => .ok s

/-- `verification.rs::verify_request_id_signature`, with the outcome of
`get_cached_jwks(domain)` passed in as `jwksResult`; on success returns
the kid that was used. -/
def verify_request_id_signature {K : Type} (ed : Ed25519Impl K) (request_id : String)
    (ext : Option Json) (jwksResult : Except VerificationError JwksResponse) :
    Except VerificationError String :=
  (getTrustedServer ext).bind fun ext_obj =>
  (getSignatureField ext_obj).bind fun signature =>
  (getKidField ext_obj).bind fun key_id =>
  jwksResult.bind fun jwks =>
  (find_public_key jwks key_id).bind fun public_key =>
  (verify_ed25519_signature ed public_key signature request_id).bind fun _ =>
  .ok key_id

/-! ## Route-level signature status (`routes.rs::handle_openrtb_auction`,
`render.rs::SignatureStatus`) -/

inductive SignatureStatus where
  | Verified (kid : String)
  | Failed (reason : String)
  | NotPresent (reason : String)
deriving DecidableEq

/-- The trust domain the handler extracts:
`req.site.as_ref().and_then(|s| s.domain)`. -/
def requestDomain (req : OpenRTBRequest) : Option String :=
  req.site.bind fun s => s.domain

/-- The `match` on the verification outcome inside
`handle_openrtb_auction`: success becomes `Verified`, an error becomes
`Failed` carrying the error display string. -/
def statusOfOutcome (outcome : Except VerificationError String) : SignatureStatus :=
  match outcome with
  | .ok kid => .Verified kid
  | .error e => .Failed e.toMessage

/-- The signature-status decision of `handle_openrtb_auction`: skip (and
classify `NotPresent`) when no domain is present, else run verification
(`verify` stands for `verify_request_id_signature` applied to the
domain) and map its outcome. -/
def signature_status_of (siteDomain : Option String)
    (verify : String → Except VerificationError String) : SignatureStatus :=
  match siteDomain with
  | some domain => statusOfOutcome (verify domain)
  | none => .NotPresent "No site.domain present in request"

/-! ## Claim theorems -/

/-- C6: for every `w, h ≥ 1`: `(w, h)` is one of the 13 fixed standard
sizes exactly when `is_standard_size` holds; on table sizes `get_cpm`
returns the fixed table CPM; on every other size `is_standard_size` is
false and `get_cpm` equals `1.50 + min(w*h/100000, 3.00)` rounded to two
decimals — the membership predicate and the exact-match pricing branch
agree on exactly the same sizes. -/
theorem C6_size_table_pricing (w h : ℤ) (hw : 1 ≤ w) (hh : 1 ≤ h) :
    ((w, h) ∈ claimStandardSizes ↔ Auction.is_standard_size w h = true) ∧
    (∀ cpm : ℚ, ((w, h), cpm) ∈ Auction.SIZE_MAP → Auction.get_cpm w h = cpm) ∧
    ((w, h) ∉ claimStandardSizes →
      Auction.is_standard_size w h = false ∧ Auction.get_cpm w h = claimFallbackCpm w h) := by
  refine ⟨⟨fun hmem => ?_, fun hstd => ?_⟩, fun cpm hmem => ?_, fun hmem => ?_⟩
  · fin_cases hmem <;> decide
  · by_contra hmem
    rw [Auction.is_standard_size, lookupSize_none_of_not_mem w h hmem] at hstd
    exact Bool.false_ne_true hstd
  · fin_cases hmem <;> norm_num [Auction.get_cpm, Auction.SIZE_MAP, Auction.lookupSize]
  · have hnone := lookupSize_none_of_not_mem w h hmem
    constructor
    · rw [Auction.is_standard_size, hnone]
      rfl
    · rw [Auction.get_cpm, hnone]
      have harea : (0 : ℚ) ≤ ((w * h : ℤ) : ℚ) := by
        have : (0 : ℤ) ≤ w * h := mul_nonneg (by omega) (by omega)
        exact_mod_cast this
      have hmin : (0 : ℚ) ≤ min (((w * h : ℤ) : ℚ) / 100000) Auction.MAX_AREA_BONUS :=
        le_min (by positivity) (by norm_num [Auction.MAX_AREA_BONUS])
      have harg : (0 : ℚ) ≤
          (Auction.DEFAULT_CPM + min (((w * h : ℤ) : ℚ) / 100000) Auction.MAX_AREA_BONUS) * 100 :=
        mul_nonneg (add_nonneg (by norm_num [Auction.DEFAULT_CPM]) hmin) (by norm_num)
      show Auction.f64Round _ / 100 = claimFallbackCpm w h
      rw [Auction.f64Round, if_pos harg, claimFallbackCpm]
      congr 2
      push_cast
      norm_num [Auction.DEFAULT_CPM, Auction.MAX_AREA_BONUS]

theorem C6_size_table_pricing_witness :
    Auction.is_standard_size 300 250 = true ∧ Auction.get_cpm 300 250 = 2.5 ∧
    Auction.is_standard_size 333 222 = false := by
  have h1 := C6_size_table_pricing 300 250 (by decide) (by decide)
  have h2 := C6_size_table_pricing 333 222 (by decide) (by decide)
  exact ⟨h1.1.mp (by decide), h1.2.1 2.5 (by norm_num [Auction.SIZE_MAP]),
    (h2.2.2 (by decide)).1⟩

/-- C7: the price codec round-trips (`decode_aps_price ∘ encode_aps_price = some`)
on every representable non-negative price, and decoding is a total
function that returns `none` whenever any stage fails — invalid base64,
non-UTF-8 decoded bytes, or a non-numeric decoded string — including on
the concrete inputs `"not-base64!!!"`, `""` and `"aGVsbG8="`. -/
theorem C7_price_codec :
    (∀ q : ℚ, 0 ≤ q → (∃ k, k < 400 ∧ (q * (10 : ℚ) ^ k).den = 1) →
      Auction.decode_aps_price (Auction.encode_aps_price q) = some q) ∧
    (∀ s : List Char, b64Decode s = none → Auction.decode_aps_price s = none) ∧
    (∀ s bs, b64Decode s = some bs → utf8Decode bs = none →
      Auction.decode_aps_price s = none) ∧
    (∀ s bs cs, b64Decode s = some bs → utf8Decode bs = some cs → parsePrice cs = none →
      Auction.decode_aps_price s = none) ∧
    Auction.decode_aps_price "not-base64!!!".data = none ∧
    Auction.decode_aps_price "".data = none ∧
    Auction.decode_aps_price "aGVsbG8=".data = none := by
  refine ⟨decode_encode_aps_price, ?_, ?_, ?_, by decide, by decide, by decide⟩
  · intro s hb
    unfold Auction.decode_aps_price
    rw [hb]
    rfl
  · intro s bs hb hu
    unfold Auction.decode_aps_price
    rw [hb, Option.some_bind, hu]
    rfl
  · intro s bs cs hb hu hp
    unfold Auction.decode_aps_price
    rw [hb, Option.some_bind, hu, Option.some_bind]
    exact hp

theorem C7_price_codec_witness :
    Auction.decode_aps_price (Auction.encode_aps_price (5 / 2 : ℚ)) = some (5 / 2 : ℚ) :=
  C7_price_codec.1 (5 / 2) (by norm_num)
    ⟨1, by norm_num, by
      rw [show ((5 / 2 : ℚ) * 10 ^ 1) = 25 by norm_num]
      exact Rat.den_ofNat 25⟩

/-- Inserting into the cache map replaces the entry for the domain
wholesale and leaves every other domain untouched. -/
theorem cacheLookup_cacheInsert (cache : List (String × JwksCache)) (domain : String)
    (entry : JwksCache) (d2 : String) :
    cacheLookup (cacheInsert cache domain entry) d2 =
      if d2 = domain then some entry else cacheLookup cache d2 := by
  induction cache with
  | nil =>
      simp only [cacheInsert, cacheLookup]
      by_cases h : d2 = domain
      · subst h
        simp
      · rw [if_neg (fun hc : domain = d2 => h hc.symm), if_neg h]
  | cons kv rest ih =>
      obtain ⟨k, v⟩ := kv
      simp only [cacheInsert]
      by_cases hk : k = domain
      · rw [if_pos hk]
        simp only [cacheLookup]
        by_cases h2 : d2 = domain
        · rw [if_pos (h2.symm : domain = d2), if_pos h2]
        · rw [if_neg (fun hc : domain = d2 => h2 hc.symm), if_neg h2,
            if_neg (fun hc : k = d2 => h2 (hc.symm.trans hk))]
      · rw [if_neg hk]
        simp only [cacheLookup]
        rw [ih]
        by_cases h2 : k = d2
        · rw [if_pos h2, if_neg (fun hc : d2 = domain => hk (h2.trans hc)), if_pos h2]
        · rw [if_neg h2]
          by_cases h3 : d2 = domain
          · rw [if_pos h3, if_pos h3]
          · rw [if_neg h3, if_neg h3, if_neg h2]

/-- C4: `get_cached_jwks` returns the cached key set with no fetch
exactly when a cached entry younger than the 10-minute TTL exists;
otherwise it performs exactly one fetch of the well-known path, storing
the fetched set under the domain (replacing any prior entry wholesale,
timestamped now) on success, and propagating the error — never falling
back to the stale entry — on failure. -/
theorem C4_jwks_cache (fetchResult : Except VerificationError JwksResponse) (now : ℕ)
    (cache : List (String × JwksCache)) (domain : String) :
    (∀ entry, cacheLookup cache domain = some entry →
      now - entry.fetched_at < JWKS_CACHE_TTL →
      get_cached_jwks fetchResult now cache domain = (.ok entry.jwks, cache, [])) ∧
    ((∀ entry, cacheLookup cache domain = some entry →
        ¬ now - entry.fetched_at < JWKS_CACHE_TTL) →
      (∀ jwks, fetchResult = .ok jwks →
        get_cached_jwks fetchResult now cache domain =
          (.ok jwks, cacheInsert cache domain ⟨jwks, now⟩, [jwksUrl domain])) ∧
      (∀ e, fetchResult = .error e →
        get_cached_jwks fetchResult now cache domain = (.error e, cache, [jwksUrl domain]))) ∧
    ((get_cached_jwks fetchResult now cache domain).2.2 = [] ↔
      ∃ entry, cacheLookup cache domain = some entry ∧
        now - entry.fetched_at < JWKS_CACHE_TTL) ∧
    (∀ (entry : JwksCache) (d2 : String),
      cacheLookup (cacheInsert cache domain entry) d2 =
        if d2 = domain then some entry else cacheLookup cache d2) := by
  refine ⟨?_, ?_, ?_, fun entry d2 => cacheLookup_cacheInsert cache domain entry d2⟩
  · intro entry hlook hfresh
    unfold get_cached_jwks
    rw [hlook]
    simp only [if_pos hfresh]
  · intro hstale
    constructor
    · intro jwks hok
      unfold get_cached_jwks
      subst hok
      cases hlook : cacheLookup cache domain with
      | none => rfl
      | some entry => simp only [if_neg (hstale entry hlook)]
    · intro e herr
      unfold get_cached_jwks
      subst herr
      cases hlook : cacheLookup cache domain with
      | none => rfl
      | some entry => simp only [if_neg (hstale entry hlook)]
  · unfold get_cached_jwks
    cases hlook : cacheLookup cache domain with
    | none =>
        cases fetchResult with
        | ok jwks => simp [hlook]
        | error e => simp [hlook]
    | some entry =>
        by_cases hfresh : now - entry.fetched_at < JWKS_CACHE_TTL
        · simp only [if_pos hfresh]
          simp [hlook, hfresh]
        · simp only [if_neg hfresh]
          cases fetchResult with
          | ok jwks => simp [hlook, hfresh]
          | error e => simp [hlook, hfresh]

theorem C4_jwks_cache_witness :
    get_cached_jwks (.error (.HttpError "net"))
      100 [("example.com", ⟨⟨[]⟩, 0⟩)] "example.com" =
      (.ok (⟨[]⟩ : JwksResponse), [("example.com", ⟨⟨[]⟩, 0⟩)], []) ∧
    get_cached_jwks (.error (.HttpError "net"))
      700 [("example.com", ⟨⟨[]⟩, 0⟩)] "example.com" =
      (.error (.HttpError "net"), [("example.com", ⟨⟨[]⟩, 0⟩)], [jwksUrl "example.com"]) := by
  constructor
  · exact (C4_jwks_cache (.error (.HttpError "net")) 100 [("example.com", ⟨⟨[]⟩, 0⟩)]
      "example.com").1 ⟨⟨[]⟩, 0⟩ (by decide) (by decide)
  · exact ((C4_jwks_cache (.error (.HttpError "net")) 700 [("example.com", ⟨⟨[]⟩, 0⟩)]
      "example.com").2.1 (by decide)).2 (.HttpError "net") rfl

/-- C9: when no trust domain is present the handler attaches
`NotPresent` with a reason (never `Failed`, and no request-level error:
the decision is total); `Failed` arises exactly when a domain is present
and verification returns an error (carrying the error display string);
`Verified` arises exactly when verification succeeds; and every attempt
yields exactly one of the three variants. -/
theorem C9_signature_status (req : OpenRTBRequest)
    (verify : String → Except VerificationError String) :
    (requestDomain req = none →
      signature_status_of (requestDomain req) verify =
        .NotPresent "No site.domain present in request") ∧
    (∀ d kid, requestDomain req = some d → verify d = .ok kid →
      signature_status_of (requestDomain req) verify = .Verified kid) ∧
    (∀ d e, requestDomain req = some d → verify d = .error e →
      signature_status_of (requestDomain req) verify = .Failed e.toMessage) ∧
    (∀ reason, signature_status_of (requestDomain req) verify = .Failed reason →
      ∃ d e, requestDomain req = some d ∧ verify d = .error e ∧
        reason = e.toMessage) ∧
    (∀ kid, signature_status_of (requestDomain req) verify = .Verified kid →
      ∃ d, requestDomain req = some d ∧ verify d = .ok kid) ∧
    ((∃ r, signature_status_of (requestDomain req) verify = .NotPresent r) ∨
     (∃ kid, signature_status_of (requestDomain req) verify = .Verified kid) ∨
     (∃ r, signature_status_of (requestDomain req) verify = .Failed r)) := by
  refine ⟨?_, ?_, ?_, ?_, ?_, ?_⟩
  · intro hnone
    unfold signature_status_of
    rw [hnone]
  · intro d kid hd hok
    unfold signature_status_of
    rw [hd]
    show statusOfOutcome (verify d) = SignatureStatus.Verified kid
    rw [hok]
    rfl
  · intro d e hd herr
    unfold signature_status_of
    rw [hd]
    show statusOfOutcome (verify d) = SignatureStatus.Failed e.toMessage
    rw [herr]
    rfl
  · intro reason hfail
    unfold signature_status_of at hfail
    cases hd : requestDomain req with
    | none =>
        rw [hd] at hfail
        simp at hfail
    | some d =>
        rw [hd] at hfail
        have h2 : statusOfOutcome (verify d) = SignatureStatus.Failed reason := hfail
        cases hv : verify d with
        | ok kid =>
            rw [hv] at h2
            simp [statusOfOutcome] at h2
        | error e =>
            rw [hv] at h2
            simp only [statusOfOutcome, SignatureStatus.Failed.injEq] at h2
            exact ⟨d, e, rfl, hv, h2.symm⟩
  · intro kid hver
    unfold signature_status_of at hver
    cases hd : requestDomain req with
    | none =>
        rw [hd] at hver
        simp at hver
    | some d =>
        rw [hd] at hver
        have h2 : statusOfOutcome (verify d) = SignatureStatus.Verified kid := hver
        cases hv : verify d with
        | ok kid2 =>
            rw [hv] at h2
            simp only [statusOfOutcome, SignatureStatus.Verified.injEq] at h2
            exact ⟨d, rfl, by rw [hv, h2]⟩
        | error e =>
            rw [hv] at h2
            simp [statusOfOutcome] at h2
  · cases hd : requestDomain req with
    | none =>
        refine Or.inl ⟨"No site.domain present in request", ?_⟩
        unfold signature_status_of
        rfl
    | some d =>
        cases hv : verify d with
        | ok kid =>
            refine Or.inr (Or.inl ⟨kid, ?_⟩)
            unfold signature_status_of
            show statusOfOutcome (verify d) = _
            rw [hv]
            rfl
        | error e =>
            refine Or.inr (Or.inr ⟨e.toMessage, ?_⟩)
            unfold signature_status_of
            show statusOfOutcome (verify d) = _
            rw [hv]
            rfl

theorem C9_signature_status_witness :
    signature_status_of
      (requestDomain (OpenRTBRequest.mk "r1" [] (some (Site.mk none))
        (some (Json.obj [("trusted_server",
          Json.obj [("signature", Json.str "sig"), ("kid", Json.str "k1")])]))))
      (fun _ => Except.error VerificationError.SignatureVerificationFailed) =
      SignatureStatus.NotPresent "No site.domain present in request" :=
  (C9_signature_status _ _).1 rfl

theorem exceptOkBind {ε α β : Type} (a : α) (f : α → Except ε β) :
    (Except.ok a : Except ε α).bind f = f a := rfl

theorem exceptErrorBind {ε α β : Type} (e : ε) (f : α → Except ε β) :
    (Except.error e : Except ε α).bind f = .error e := rfl

/-- C3: each failure condition of `verify_request_id_signature` yields
its designated distinct error class — missing trusted-server block or
missing signature string: invalid-signature; missing kid: key-not-found
(distinct from the missing-signature class); kid absent from the key
set: key-not-found; base64url or length failure of key (32 bytes) or
signature (64 bytes): invalid-signature; cryptographic mismatch:
signature-verification-failed, distinct from all the above; and success
returns exactly the kid that was used. -/
theorem C3_verify_error_classes {K : Type} (ed : Ed25519Impl K) (request_id : String)
    (ext : Option Json) (jwksResult : Except VerificationError JwksResponse) :
    ((ext.bind fun e => e.get "trusted_server") = none →
      verify_request_id_signature ed request_id ext jwksResult =
        .error (.InvalidSignature "Missing ext.trusted_server")) ∧
    (∀ ext_obj, (ext.bind fun e => e.get "trusted_server") = some ext_obj →
      (ext_obj.get "signature").bind Json.as_str = none →
      verify_request_id_signature ed request_id ext jwksResult =
        .error (.InvalidSignature "Missing ext.trusted_server.signature")) ∧
    (∀ ext_obj signature, (ext.bind fun e => e.get "trusted_server") = some ext_obj →
      (ext_obj.get "signature").bind Json.as_str = some signature →
      (ext_obj.get "kid").bind Json.as_str = none →
      verify_request_id_signature ed request_id ext jwksResult =
        .error (.KeyNotFound "Missing ext.trusted_server.kid")) ∧
    (∀ ext_obj signature key_id jwks,
      (ext.bind fun e => e.get "trusted_server") = some ext_obj →
      (ext_obj.get "signature").bind Json.as_str = some signature →
      (ext_obj.get "kid").bind Json.as_str = some key_id →
      jwksResult = .ok jwks →
      jwks.keys.find? (fun k => k.kid == key_id) = none →
      verify_request_id_signature ed request_id ext jwksResult =
        .error (.KeyNotFound ("Key " ++ key_id ++ " not found in JWKS"))) ∧
    (∀ ext_obj signature key_id jwks jwkey,
      (ext.bind fun e => e.get "trusted_server") = some ext_obj →
      (ext_obj.get "signature").bind Json.as_str = some signature →
      (ext_obj.get "kid").bind Json.as_str = some key_id →
      jwksResult = .ok jwks →
      jwks.keys.find? (fun k => k.kid == key_id) = some jwkey →
      ((b64UrlDecode jwkey.x.data = none →
        verify_request_id_signature ed request_id ext jwksResult =
          .error (.InvalidSignature "Invalid public key encoding")) ∧
       (∀ key_bytes, b64UrlDecode jwkey.x.data = some key_bytes →
        key_bytes.length ≠ 32 →
        verify_request_id_signature ed request_id ext jwksResult =
          .error (.InvalidSignature "Invalid public key length: expected 32")) ∧
       (∀ key_bytes vk, b64UrlDecode jwkey.x.data = some key_bytes →
        key_bytes.length = 32 → ed.fromBytes key_bytes = some vk →
        ((b64UrlDecode signature.data = none →
          verify_request_id_signature ed request_id ext jwksResult =
            .error (.InvalidSignature "Invalid signature encoding")) ∧
         (∀ sig_bytes, b64UrlDecode signature.data = some sig_bytes →
          sig_bytes.length ≠ 64 →
          verify_request_id_signature ed request_id ext jwksResult =
            .error (.InvalidSignature "Invalid signature length: expected 64")) ∧
         (∀ sig_bytes, b64UrlDecode signature.data = some sig_bytes →
          sig_bytes.length = 64 →
          ed.verify vk (utf8Encode request_id.data) sig_bytes = false →
          verify_request_id_signature ed request_id ext jwksResult =
            .error .SignatureVerificationFailed) ∧
         (∀ sig_bytes, b64UrlDecode signature.data = some sig_bytes →
          sig_bytes.length = 64 →
          ed.verify vk (utf8Encode request_id.data) sig_bytes = true →
          verify_request_id_signature ed request_id ext jwksResult = .ok key_id))))) ∧
    (∀ m m2, VerificationError.InvalidSignature m ≠ VerificationError.KeyNotFound m2) ∧
    (∀ m, VerificationError.InvalidSignature m ≠
      VerificationError.SignatureVerificationFailed) ∧
    (∀ m, VerificationError.KeyNotFound m ≠
      VerificationError.SignatureVerificationFailed) := by
  refine ⟨?_, ?_, ?_, ?_, ?_, ?_, ?_, ?_⟩
  case refine_6 =>
    intro m m2 h
    cases h
  case refine_7 =>
    intro m h
    cases h
  case refine_8 =>
    intro m h
    cases h
  · intro hts
    have h1 : getTrustedServer ext = .error (.InvalidSignature "Missing ext.trusted_server") := by
      unfold getTrustedServer
      rw [hts]
    unfold verify_request_id_signature
    simp only [h1, exceptErrorBind]
  · intro ext_obj hts hsig
    have h1 : getTrustedServer ext = .ok ext_obj := by
      unfold getTrustedServer
      rw [hts]
    have h2 : getSignatureField ext_obj =
        .error (.InvalidSignature "Missing ext.trusted_server.signature") := by
      unfold getSignatureField
      rw [hsig]
    unfold verify_request_id_signature
    simp only [h1, h2, exceptOkBind, exceptErrorBind]
  · intro ext_obj signature hts hsig hkid
    have h1 : getTrustedServer ext = .ok ext_obj := by
      unfold getTrustedServer
      rw [hts]
    have h2 : getSignatureField ext_obj = .ok signature := by
      unfold getSignatureField
      rw [hsig]
    have h3 : getKidField ext_obj =
        .error (.KeyNotFound "Missing ext.trusted_server.kid") := by
      unfold getKidField
      rw [hkid]
    unfold verify_request_id_signature
    simp only [h1, h2, h3, exceptOkBind, exceptErrorBind]
  · intro ext_obj signature key_id jwks hts hsig hkid hjwks hfind
    have h1 : getTrustedServer ext = .ok ext_obj := by
      unfold getTrustedServer
      rw [hts]
    have h2 : getSignatureField ext_obj = .ok signature := by
      unfold getSignatureField
      rw [hsig]
    have h3 : getKidField ext_obj = .ok key_id := by
      unfold getKidField
      rw [hkid]
    have h4 : find_public_key jwks key_id =
        .error (.KeyNotFound ("Key " ++ key_id ++ " not found in JWKS")) := by
      unfold find_public_key
      rw [hfind]
    unfold verify_request_id_signature
    simp only [h1, h2, h3, h4, hjwks, exceptOkBind, exceptErrorBind]
  · intro ext_obj signature key_id jwks jwkey hts hsig hkid hjwks hfind
    have h1 : getTrustedServer ext = .ok ext_obj := by
      unfold getTrustedServer
      rw [hts]
    have h2 : getSignatureField ext_obj = .ok signature := by
      unfold getSignatureField
      rw [hsig]
    have h3 : getKidField ext_obj = .ok key_id := by
      unfold getKidField
      rw [hkid]
    have h4 : find_public_key jwks key_id = .ok jwkey.x := by
      unfold find_public_key
      rw [hfind]
    refine ⟨?_, ?_, ?_⟩
    · intro hdec
      have h5 : decodePublicKey jwkey.x =
          .error (.InvalidSignature "Invalid public key encoding") := by
        unfold decodePublicKey
        rw [hdec]
      unfold verify_request_id_signature verify_ed25519_signature
      simp only [h1, h2, h3, h4, h5, hjwks, exceptOkBind, exceptErrorBind]
    · intro key_bytes hdec hlen
      have h5 : decodePublicKey jwkey.x = .ok key_bytes := by
        unfold decodePublicKey
        rw [hdec]
      have h6 : checkKeyLength key_bytes =
          .error (.InvalidSignature "Invalid public key length: expected 32") := by
        unfold checkKeyLength
        rw [if_pos hlen]
      unfold verify_request_id_signature verify_ed25519_signature
      simp only [h1, h2, h3, h4, h5, h6, hjwks, exceptOkBind, exceptErrorBind]
    · intro key_bytes vk hdec hlen hfb
      have h5 : decodePublicKey jwkey.x = .ok key_bytes := by
        unfold decodePublicKey
        rw [hdec]
      have h6 : checkKeyLength key_bytes = .ok key_bytes := by
        unfold checkKeyLength
        rw [if_neg (by simp [hlen])]
      have h7 : parseVerifyingKey ed key_bytes = .ok vk := by
        unfold parseVerifyingKey
        rw [hfb]
      refine ⟨?_, ?_, ?_, ?_⟩
      · intro hsdec
        have h8 : decodeSignature signature =
            .error (.InvalidSignature "Invalid signature encoding") := by
          unfold decodeSignature
          rw [hsdec]
        unfold verify_request_id_signature verify_ed25519_signature
        simp only [h1, h2, h3, h4, h5, h6, h7, h8, hjwks, exceptOkBind, exceptErrorBind]
      · intro sig_bytes hsdec hslen
        have h8 : decodeSignature signature = .ok sig_bytes := by
          unfold decodeSignature
          rw [hsdec]
        have h9 : checkSigLength sig_bytes =
            .error (.InvalidSignature "Invalid signature length: expected 64") := by
          unfold checkSigLength
          rw [if_pos hslen]
        unfold verify_request_id_signature verify_ed25519_signature
        simp only [h1, h2, h3, h4, h5, h6, h7, h8, h9, hjwks, exceptOkBind, exceptErrorBind]
      · intro sig_bytes hsdec hslen hver
        have h8 : decodeSignature signature = .ok sig_bytes := by
          unfold decodeSignature
          rw [hsdec]
        have h9 : checkSigLength sig_bytes = .ok sig_bytes := by
          unfold checkSigLength
          rw [if_neg (by simp [hslen])]
        unfold verify_request_id_signature verify_ed25519_signature
        simp only [h1, h2, h3, h4, h5, h6, h7, h8, h9, hjwks, hver,
          exceptOkBind, exceptErrorBind]
        rfl
      · intro sig_bytes hsdec hslen hver
        have h8 : decodeSignature signature = .ok sig_bytes := by
          unfold decodeSignature
          rw [hsdec]
        have h9 : checkSigLength sig_bytes = .ok sig_bytes := by
          unfold checkSigLength
          rw [if_neg (by simp [hslen])]
        unfold verify_request_id_signature verify_ed25519_signature
        simp only [h1, h2, h3, h4, h5, h6, h7, h8, h9, hjwks, hver,
          exceptOkBind, exceptErrorBind]
        rfl

theorem C3_verify_error_classes_witness :
    verify_request_id_signature
      ({ fromBytes := fun _ => some (), verify := fun _ _ _ => true } : Ed25519Impl Unit)
      "req-1"
      (some (Json.obj [("trusted_server", Json.obj
        [("signature", Json.str "AAAAAAAAAAAAAAAAAAAAAAAAAAAAAAAAAAAAAAAAAAAAAAAAAAAAAAAAAAAAAAAAAAAAAAAAAAAAAAAAAAAAAA"),
         ("kid", Json.str "key-001")])]))
      (.ok ⟨[⟨"key-001", "AAAAAAAAAAAAAAAAAAAAAAAAAAAAAAAAAAAAAAAAAAA"⟩]⟩) =
      .ok "key-001" := by
  exact (((C3_verify_error_classes
      ({ fromBytes := fun _ => some (), verify := fun _ _ _ => true } : Ed25519Impl Unit)
      "req-1"
      (some (Json.obj [("trusted_server", Json.obj
        [("signature", Json.str "AAAAAAAAAAAAAAAAAAAAAAAAAAAAAAAAAAAAAAAAAAAAAAAAAAAAAAAAAAAAAAAAAAAAAAAAAAAAAAAAAAAAAA"),
         ("kid", Json.str "key-001")])]))
      (.ok ⟨[⟨"key-001", "AAAAAAAAAAAAAAAAAAAAAAAAAAAAAAAAAAAAAAAAAAA"⟩]⟩)).2.2.2.2.1
    (Json.obj [("signature", Json.str "AAAAAAAAAAAAAAAAAAAAAAAAAAAAAAAAAAAAAAAAAAAAAAAAAAAAAAAAAAAAAAAAAAAAAAAAAAAAAAAAAAAAAA"),
      ("kid", Json.str "key-001")])
    "AAAAAAAAAAAAAAAAAAAAAAAAAAAAAAAAAAAAAAAAAAAAAAAAAAAAAAAAAAAAAAAAAAAAAAAAAAAAAAAAAAAAAA"
    "key-001"
    ⟨[⟨"key-001", "AAAAAAAAAAAAAAAAAAAAAAAAAAAAAAAAAAAAAAAAAAA"⟩]⟩
    ⟨"key-001", "AAAAAAAAAAAAAAAAAAAAAAAAAAAAAAAAAAAAAAAAAAA"⟩
    rfl rfl rfl rfl rfl).2.2
      (List.replicate 32 0) () (by decide) (by decide) rfl).2.2.2
      (List.replicate 64 0) (by decide) (by decide) rfl

/-- C5: `build_openrtb_response` emits exactly one synthesized bid per
input impression, in input order, under the single seat; each bid takes
the impression size (explicit banner width/height, else first
format, else 300x250) snapped to 300x250 when non-standard; its price
is the `imp.ext.mocktioneer.bid` override when present and otherwise the
size-table CPM of the (possibly snapped) size; its creative id is
derived deterministically from the impression id; and its bid id is a
fresh draw from the id supply. -/
theorem C5_bid_synthesis (req : OpenRTBRequest) (base_host : String) :
    ∃ sb : SeatBid,
      (Auction.build_openrtb_response req base_host).seatbid = [sb] ∧
      sb.seat = some "mocktioneer" ∧
      sb.bid.length = req.imp.length ∧
      ∀ (i : ℕ), i < req.imp.length → ∀ (hi : i < req.imp.length), ∃ b : Bid,
        sb.bid[i]? = some b ∧
        b.impid = (if (req.imp.get ⟨i, hi⟩).id = "" then "1" else (req.imp.get ⟨i, hi⟩).id) ∧
        b.w = some
          (Auction.standard_or_default (Auction.size_from_imp (req.imp.get ⟨i, hi⟩))).1 ∧
        b.h = some
          (Auction.standard_or_default (Auction.size_from_imp (req.imp.get ⟨i, hi⟩))).2 ∧
        (Auction.is_standard_size (Auction.size_from_imp (req.imp.get ⟨i, hi⟩)).1
            (Auction.size_from_imp (req.imp.get ⟨i, hi⟩)).2 = false →
          b.w = some 300 ∧ b.h = some 250) ∧
        b.price = ((((req.imp.get ⟨i, hi⟩).ext.bind fun e => e.mocktioneer).bind
            fun m => m.bid).getD
          (Auction.get_cpm
            (Auction.standard_or_default (Auction.size_from_imp (req.imp.get ⟨i, hi⟩))).1
            (Auction.standard_or_default (Auction.size_from_imp (req.imp.get ⟨i, hi⟩))).2)) ∧
        b.crid = some ("mocktioneer-" ++
          (if (req.imp.get ⟨i, hi⟩).id = "" then "1" else (req.imp.get ⟨i, hi⟩).id)) ∧
        b.id = genId i := by
  refine ⟨_, rfl, rfl, ?_, ?_⟩
  · show (req.imp.enum.map fun p => Auction.synthBid base_host p.1 p.2).length = req.imp.length
    rw [List.length_map, List.enum_length]
  · intro i _ hi
    refine ⟨Auction.synthBid base_host i (req.imp.get ⟨i, hi⟩), ?_, ?_, ?_, ?_, ?_, ?_, ?_, rfl⟩
    · show (req.imp.enum.map fun p => Auction.synthBid base_host p.1 p.2)[i]? = _
      rw [List.getElem?_map, List.getElem?_enum, List.getElem?_eq_getElem hi]
      rfl
    · rfl
    · rfl
    · rfl
    · intro hns
      constructor
      · show some (Auction.standard_or_default
            (Auction.size_from_imp (req.imp.get ⟨i, hi⟩))).1 = some 300
        rw [Auction.standard_or_default, if_neg (by rw [show (req.imp.get ⟨i, hi⟩) = req.imp[i] from rfl] at hns; simp [hns])]
      · show some (Auction.standard_or_default
            (Auction.size_from_imp (req.imp.get ⟨i, hi⟩))).2 = some 250
        rw [Auction.standard_or_default, if_neg (by rw [show (req.imp.get ⟨i, hi⟩) = req.imp[i] from rfl] at hns; simp [hns])]
    · rfl
    · rfl

theorem C5_bid_synthesis_witness :
    ∃ sb : SeatBid,
      (Auction.build_openrtb_response
        (OpenRTBRequest.mk "r2"
          [Imp.mk "imp-a" (some (Banner.mk (some 333) (some 222) none)) none,
           Imp.mk "imp-b" (some (Banner.mk (some 728) (some 90) none)) none]
          none none) "host.test").seatbid = [sb] ∧
      sb.bid.length = 2 ∧
      ∃ b : Bid, sb.bid[0]? = some b ∧ b.w = some 300 ∧ b.h = some 250 := by
  obtain ⟨sb, hsb, _, hlen, hidx⟩ := C5_bid_synthesis
    (OpenRTBRequest.mk "r2"
      [Imp.mk "imp-a" (some (Banner.mk (some 333) (some 222) none)) none,
       Imp.mk "imp-b" (some (Banner.mk (some 728) (some 90) none)) none]
      none none) "host.test"
  obtain ⟨b, hb, _, _, _, hsnap, _, _, _⟩ := hidx 0 (by decide) (by decide)
  exact ⟨sb, hsb, hlen, b, hb, hsnap (by decide)⟩

theorem resolve_price_error_iff (bidder : String) (bid : MediationBid) :
    (∃ e, Mediation.resolve_price bidder bid = .error e) ↔
      Mediation.unresolvable bid = true := by
  unfold Mediation.resolve_price Mediation.unresolvable
  cases henc : bid.encoded_price with
  | some encoded =>
      cases hdec : Mediation.decode_aps_price encoded with
      | ok p => simp [hdec]
      | error e => simp [hdec]
  | none =>
      cases hp : bid.price with
      | some p => simp [hp]
      | none => simp [hp]

theorem resolve_price_ok_of_resolvable (bidder : String) (bid : MediationBid)
    (h : Mediation.unresolvable bid = false) :
    ∃ p, Mediation.resolve_price bidder bid = .ok p := by
  cases hr : Mediation.resolve_price bidder bid with
  | ok p => exact ⟨p, rfl⟩
  | error e =>
      have := (resolve_price_error_iff bidder bid).mp ⟨e, hr⟩
      rw [h] at this
      cases this

theorem collectFromBidder_error_iff (bidder : String) :
    ∀ (bids : List MediationBid) (groups : List (String × List ResolvedBid)),
    (∃ e, Mediation.collectFromBidder bidder bids groups = .error e) ↔
      ∃ bid ∈ bids, Mediation.unresolvable bid = true := by
  intro bids
  induction bids with
  | nil =>
      intro groups
      simp [Mediation.collectFromBidder]
  | cons bid bids ih =>
      intro groups
      unfold Mediation.collectFromBidder
      cases hr : Mediation.resolve_price bidder bid with
      | error e =>
          simp only [List.mem_cons]
          constructor
          · intro _
            exact ⟨bid, Or.inl rfl, (resolve_price_error_iff bidder bid).mp ⟨e, hr⟩⟩
          · intro _
            exact ⟨e, rfl⟩
      | ok price =>
          have hres : Mediation.unresolvable bid = false := by
            by_contra hc
            have hb : Mediation.unresolvable bid = true := by
              cases hbool : Mediation.unresolvable bid
              · exact absurd hbool hc
              · rfl
            obtain ⟨e, he⟩ := (resolve_price_error_iff bidder bid).mpr hb
            rw [hr] at he
            cases he
          rw [ih (Mediation.pushBid groups bid.imp_id ⟨bidder, bid, price⟩)]
          constructor
          · intro ⟨b, hmem, hb⟩
            exact ⟨b, List.mem_cons_of_mem bid hmem, hb⟩
          · intro ⟨b, hmem, hb⟩
            rcases List.mem_cons.mp hmem with rfl | hmem2
            · rw [hres] at hb
              cases hb
            · exact ⟨b, hmem2, hb⟩

theorem collectAll_error_iff :
    ∀ (brs : List BidderResponse) (groups : List (String × List ResolvedBid)),
    (∃ e, Mediation.collectAll brs groups = .error e) ↔
      ∃ br ∈ brs, ∃ bid ∈ br.bids, Mediation.unresolvable bid = true := by
  intro brs
  induction brs with
  | nil =>
      intro groups
      simp [Mediation.collectAll]
  | cons br brs ih =>
      intro groups
      unfold Mediation.collectAll
      cases hc : Mediation.collectFromBidder br.bidder br.bids groups with
      | error e =>
          simp only [List.mem_cons]
          constructor
          · intro _
            obtain ⟨bid, hmem, hb⟩ :=
              (collectFromBidder_error_iff br.bidder br.bids groups).mp ⟨e, hc⟩
            exact ⟨br, Or.inl rfl, bid, hmem, hb⟩
          · intro _
            exact ⟨e, rfl⟩
      | ok groups2 =>
          have hok : ¬ ∃ bid ∈ br.bids, Mediation.unresolvable bid = true := by
            intro hex
            obtain ⟨e, he⟩ :=
              (collectFromBidder_error_iff br.bidder br.bids groups).mpr hex
            rw [hc] at he
            cases he
          rw [ih groups2]
          constructor
          · intro ⟨b, hmem, hb⟩
            exact ⟨b, List.mem_cons_of_mem br hmem, hb⟩
          · intro ⟨b, hmem, hb⟩
            rcases List.mem_cons.mp hmem with rfl | hmem2
            · exact absurd hb hok
            · exact ⟨b, hmem2, hb⟩

set_option maxHeartbeats 1000000 in
/-- C2: `mediate_auction` returns an error exactly when some bid of some
bidder response has an unresolvable price (undecodable `encoded_price` —
the decode stages being base64, UTF-8, and the full `f64::from_str`
grammar — or neither an `encoded_price` nor a plain `price`); a single
such bid aborts the whole call. In every other case — no bidder
responses, all bids below the floor, empty impression list included —
it returns a response (possibly with an empty seat list). The decode
accepts everything Rust's parse accepts: concretely, `"LTE="` (base64
of `"-1"`) decodes to `-1` and `"Mi41ZTA="` (base64 of `"2.5e0"`)
decodes to `5/2`, so such bids do not abort mediation. -/
theorem C2_mediation_failure_semantics (request : MediationRequest) (base_host : String) :
    ((∃ e, Mediation.mediate_auction request base_host = .error e) ↔
      ∃ br ∈ request.ext.bidder_responses, ∃ bid ∈ br.bids,
        Mediation.unresolvable bid = true) ∧
    ((∀ br ∈ request.ext.bidder_responses, ∀ bid ∈ br.bids,
        Mediation.unresolvable bid = false) →
      ∃ resp, Mediation.mediate_auction request base_host = .ok resp) ∧
    Mediation.decode_aps_price "LTE=" = .ok (-1) ∧
    Mediation.decode_aps_price "Mi41ZTA=" = .ok (5 / 2) := by
  have hmain : (∃ e, Mediation.mediate_auction request base_host = .error e) ↔
      ∃ br ∈ request.ext.bidder_responses, ∃ bid ∈ br.bids,
        Mediation.unresolvable bid = true := by
    rw [← collectAll_error_iff request.ext.bidder_responses []]
    unfold Mediation.mediate_auction
    cases hc : Mediation.collectAll request.ext.bidder_responses [] with
    | error e =>
        constructor
        · intro _
          exact ⟨e, rfl⟩
        · intro _
          exact ⟨e, rfl⟩
    | ok groups =>
        constructor
        · intro ⟨e, he⟩
          cases he
        · intro ⟨e, he⟩
          cases he
  refine ⟨hmain, fun hall => ?_, ?_, ?_⟩
  · cases hm : Mediation.mediate_auction request base_host with
    | ok resp => exact ⟨resp, rfl⟩
    | error e =>
        obtain ⟨br, hbr, bid, hbid, hb⟩ := hmain.mp ⟨e, hm⟩
        rw [hall br hbr bid hbid] at hb
        cases hb
  · unfold Mediation.decode_aps_price
    rw [show b64Decode "LTE=".data = some [45, 49] from by decide]
    show (match utf8Decode [45, 49] with
      | none => Except.error "Failed to convert decoded price to UTF-8"
      | some priceStr =>
          match parseRustF64 priceStr with
          | none => Except.error "Failed to parse price as f64"
          | some price => Except.ok price) = Except.ok (-1)
    rw [show utf8Decode [45, 49] = some ['-', '1'] from by decide]
    show (match parseRustF64 ['-', '1'] with
      | none => Except.error "Failed to parse price as f64"
      | some price => Except.ok price) = Except.ok (-1)
    rw [show parseRustF64 ['-', '1'] = some (-1) from by
      simp +decide [parseRustF64, parseRustF64Body, parseNumberExp, parsePrice,
        parseAfterInt, parseDigits, charVal, Char.toLower, isDigitChar]]
  · unfold Mediation.decode_aps_price
    rw [show b64Decode "Mi41ZTA=".data = some [50, 46, 53, 101, 48] from by decide]
    show (match utf8Decode [50, 46, 53, 101, 48] with
      | none => Except.error "Failed to convert decoded price to UTF-8"
      | some priceStr =>
          match parseRustF64 priceStr with
          | none => Except.error "Failed to parse price as f64"
          | some price => Except.ok price) = Except.ok (5 / 2)
    rw [show utf8Decode [50, 46, 53, 101, 48] = some ['2', '.', '5', 'e', '0'] from by decide]
    show (match parseRustF64 ['2', '.', '5', 'e', '0'] with
      | none => Except.error "Failed to parse price as f64"
      | some price => Except.ok price) = Except.ok (5 / 2)
    rw [show parseRustF64 ['2', '.', '5', 'e', '0'] = some (5 / 2) from by
      simp +decide [parseRustF64, parseRustF64Body, parseNumberExp, parsePrice,
        parseAfterInt, parseExp, parseDigits, charVal, Char.toLower, isDigitChar]
      norm_num]

theorem C2_mediation_failure_semantics_witness :
    (∃ e, Mediation.mediate_auction
      (MediationRequest.mk "a1" [Imp.mk "imp1" none none]
        (MediationExt.mk
          [BidderResponse.mk "good" [MediationBid.mk "imp1" (some 3) none none 300 250 none none],
           BidderResponse.mk "broken" [MediationBid.mk "imp2" none none none 300 250 none none]]
          none))
      "host.test" = .error e) ∧
    (∃ resp, Mediation.mediate_auction
      (MediationRequest.mk "a2" [Imp.mk "imp1" none none]
        (MediationExt.mk
          [BidderResponse.mk "aps"
            [MediationBid.mk "imp1" none (some "LTE=") none 300 250 none none]]
          none))
      "host.test" = .ok resp) := by
  constructor
  · apply (C2_mediation_failure_semantics _ "host.test").1.mpr
    exact ⟨BidderResponse.mk "broken"
        [MediationBid.mk "imp2" none none none 300 250 none none],
      by simp,
      MediationBid.mk "imp2" none none none 300 250 none none,
      by simp,
      by decide⟩
  · apply (C2_mediation_failure_semantics _ "host.test").2.1
    intro br hbr bid hbid
    fin_cases hbr
    fin_cases hbid
    decide

/-- The effective price floor of a mediation call: configured value,
default 0. -/
def Mediation.defaultFloor (request : MediationRequest) : ℚ :=
  (request.ext.config.bind fun c => c.price_floor).getD 0

/-- The `retain` step: bids at or above the floor. -/
def Mediation.keptBids (floor : ℚ) (bids : List ResolvedBid) : List ResolvedBid :=
  bids.filter fun rb => floor ≤ rb.resolved_price

theorem pushBid_fst (groups : List (String × List ResolvedBid)) (k : String)
    (rb : ResolvedBid) :
    (Mediation.pushBid groups k rb).map Prod.fst =
      if k ∈ groups.map Prod.fst then groups.map Prod.fst
      else groups.map Prod.fst ++ [k] := by
  induction groups with
  | nil => simp [Mediation.pushBid]
  | cons kv rest ih =>
      obtain ⟨k0, vs⟩ := kv
      by_cases hk : k0 = k
      · subst hk
        simp [Mediation.pushBid]
      · simp only [Mediation.pushBid, if_neg hk, List.map_cons, ih]
        by_cases hmem : k ∈ rest.map Prod.fst
        · rw [if_pos hmem, if_pos (by simp [hmem])]
        · have hnotin : ¬ k ∈ k0 :: rest.map Prod.fst := by
            intro hc
            rcases List.mem_cons.mp hc with hc1 | hc2
            · exact hk hc1.symm
            · exact hmem hc2
          rw [if_neg hmem, if_neg hnotin, List.cons_append]

theorem pushBid_fst_nodup (groups : List (String × List ResolvedBid)) (k : String)
    (rb : ResolvedBid) (h : (groups.map Prod.fst).Nodup) :
    ((Mediation.pushBid groups k rb).map Prod.fst).Nodup := by
  rw [pushBid_fst]
  by_cases hmem : k ∈ groups.map Prod.fst
  · rw [if_pos hmem]
    exact h
  · rw [if_neg hmem]
    simp [List.nodup_append, h, hmem]

theorem collectFromBidder_fst_nodup (bidder : String) :
    ∀ (bids : List MediationBid) (groups out : List (String × List ResolvedBid)),
    Mediation.collectFromBidder bidder bids groups = .ok out →
    (groups.map Prod.fst).Nodup → (out.map Prod.fst).Nodup := by
  intro bids
  induction bids with
  | nil =>
      intro groups out hok hnd
      unfold Mediation.collectFromBidder at hok
      cases hok
      exact hnd
  | cons bid bids ih =>
      intro groups out hok hnd
      unfold Mediation.collectFromBidder at hok
      cases hr : Mediation.resolve_price bidder bid with
      | error e =>
          rw [hr] at hok
          cases hok
      | ok price =>
          rw [hr] at hok
          exact ih _ out hok (pushBid_fst_nodup groups bid.imp_id _ hnd)

theorem collectAll_fst_nodup :
    ∀ (brs : List BidderResponse) (groups out : List (String × List ResolvedBid)),
    Mediation.collectAll brs groups = .ok out →
    (groups.map Prod.fst).Nodup → (out.map Prod.fst).Nodup := by
  intro brs
  induction brs with
  | nil =>
      intro groups out hok hnd
      unfold Mediation.collectAll at hok
      cases hok
      exact hnd
  | cons br brs ih =>
      intro groups out hok hnd
      unfold Mediation.collectAll at hok
      cases hc : Mediation.collectFromBidder br.bidder br.bids groups with
      | error e =>
          rw [hc] at hok
          cases hok
      | ok groups2 =>
          rw [hc] at hok
          exact ih groups2 out hok (collectFromBidder_fst_nodup br.bidder br.bids groups groups2 hc hnd)

/-- The left-to-right reduce keeps the earliest maximal-price bid: the
list splits into strictly smaller bids before the winner and at-most-equal
bids after it. -/
theorem pickWinner_split (rest : List ResolvedBid) : ∀ (first : ResolvedBid),
    ∃ pre post, first :: rest = pre ++ Mediation.pickWinner first rest :: post ∧
      (∀ b ∈ pre, b.resolved_price < (Mediation.pickWinner first rest).resolved_price) ∧
      (∀ b ∈ post, b.resolved_price ≤ (Mediation.pickWinner first rest).resolved_price) := by
  induction rest with
  | nil =>
      intro first
      exact ⟨[], [], rfl, by simp, by simp⟩
  | cons c rest2 ih =>
      intro first
      have hfold : Mediation.pickWinner first (c :: rest2) =
          Mediation.pickWinner
            (if first.resolved_price < c.resolved_price then c else first) rest2 := rfl
      by_cases hcmp : first.resolved_price < c.resolved_price
      · rw [hfold, if_pos hcmp]
        obtain ⟨pre, post, hsplit, hpre, hpost⟩ := ih c
        cases pre with
        | nil =>
            rw [List.nil_append] at hsplit
            have hw : c = Mediation.pickWinner c rest2 := (List.cons.injEq _ _ _ _ ▸ hsplit).1
            refine ⟨[first], post, ?_, ?_, hpost⟩
            · rw [List.singleton_append, hsplit]
            · intro b hb
              rw [List.mem_singleton] at hb
              subst hb
              rw [← hw]
              exact hcmp
        | cons p0 pre2 =>
            rw [List.cons_append] at hsplit
            have hc0 : c = p0 := (List.cons.injEq _ _ _ _ ▸ hsplit).1
            have hr2 : rest2 = pre2 ++ Mediation.pickWinner c rest2 :: post :=
              (List.cons.injEq _ _ _ _ ▸ hsplit).2
            refine ⟨first :: p0 :: pre2, post, ?_, ?_, hpost⟩
            · rw [List.cons_append, List.cons_append, ← hr2, hc0]
            · intro b hb
              rcases List.mem_cons.mp hb with rfl | hb2
              · calc b.resolved_price < c.resolved_price := hcmp
                  _ < (Mediation.pickWinner c rest2).resolved_price := by
                    have hp0 := hpre p0 (by simp)
                    rw [← hc0] at hp0
                    exact hp0
              · exact hpre b hb2
      · rw [hfold, if_neg hcmp]
        have hle : c.resolved_price ≤ first.resolved_price := not_lt.mp hcmp
        obtain ⟨pre, post, hsplit, hpre, hpost⟩ := ih first
        cases pre with
        | nil =>
            rw [List.nil_append] at hsplit
            have hw : first = Mediation.pickWinner first rest2 :=
              (List.cons.injEq _ _ _ _ ▸ hsplit).1
            have hr2 : rest2 = post := (List.cons.injEq _ _ _ _ ▸ hsplit).2
            refine ⟨[], c :: post, ?_, by simp, ?_⟩
            · rw [List.nil_append, ← hw, ← hr2]
            · intro b hb
              rcases List.mem_cons.mp hb with rfl | hb2
              · rw [← hw]
                exact hle
              · exact hpost b hb2
        | cons p0 pre2 =>
            rw [List.cons_append] at hsplit
            have hf0 : first = p0 := (List.cons.injEq _ _ _ _ ▸ hsplit).1
            have hr2 : rest2 = pre2 ++ Mediation.pickWinner first rest2 :: post :=
              (List.cons.injEq _ _ _ _ ▸ hsplit).2
            refine ⟨first :: c :: pre2, post, ?_, ?_, hpost⟩
            · rw [List.cons_append, List.cons_append, ← hr2]
            · intro b hb
              have hp0 := hpre p0 (by simp)
              rw [← hf0] at hp0
              rcases List.mem_cons.mp hb with rfl | hb2
              · exact hp0
              · rcases List.mem_cons.mp hb2 with rfl | hb3
                · calc b.resolved_price ≤ first.resolved_price := hle
                    _ < _ := hp0
                · exact hpre b (by simp [hb3])

theorem selectWinners_fst_mem (floor : ℚ) :
    ∀ (groups : List (String × List ResolvedBid)) (p : String × ResolvedBid),
    p ∈ Mediation.selectWinners floor groups → p.1 ∈ groups.map Prod.fst := by
  intro groups
  induction groups with
  | nil =>
      intro p hp
      simp [Mediation.selectWinners] at hp
  | cons kv rest ih =>
      obtain ⟨impId, bids⟩ := kv
      intro p hp
      unfold Mediation.selectWinners at hp
      cases hf : bids.filter (fun rb => floor ≤ rb.resolved_price) with
      | nil =>
          rw [hf] at hp
          exact List.mem_cons_of_mem _ (ih p hp)
      | cons b bs =>
          rw [hf] at hp
          rcases List.mem_cons.mp hp with rfl | hp2
          · simp
          · exact List.mem_cons_of_mem _ (ih p hp2)

theorem selectWinners_entry (floor : ℚ) :
    ∀ (groups : List (String × List ResolvedBid)),
    (groups.map Prod.fst).Nodup →
    ∀ impId bids, (impId, bids) ∈ groups →
      ((bids.filter (fun rb => floor ≤ rb.resolved_price) = [] →
        ∀ w, (impId, w) ∉ Mediation.selectWinners floor groups) ∧
       (∀ b bs, bids.filter (fun rb => floor ≤ rb.resolved_price) = b :: bs →
        (impId, Mediation.pickWinner b bs) ∈ Mediation.selectWinners floor groups ∧
        ∀ w, (impId, w) ∈ Mediation.selectWinners floor groups →
          w = Mediation.pickWinner b bs)) := by
  intro groups
  induction groups with
  | nil =>
      intro _ impId bids hmem
      simp at hmem
  | cons kv rest ih =>
      obtain ⟨impId0, bids0⟩ := kv
      intro hnd impId bids hmem
      have hnd0 : impId0 ∉ rest.map Prod.fst := by
        simp only [List.map_cons, List.nodup_cons] at hnd
        exact hnd.1
      have hndrest : (rest.map Prod.fst).Nodup := by
        simp only [List.map_cons, List.nodup_cons] at hnd
        exact hnd.2
      rcases List.mem_cons.mp hmem with heq | hmem2
      · obtain ⟨h1, h2⟩ := Prod.mk.injEq .. ▸ heq
        subst h1
        subst h2
        constructor
        · intro hempty w hw
          unfold Mediation.selectWinners at hw
          rw [hempty] at hw
          have := selectWinners_fst_mem floor rest (impId, w) hw
          exact hnd0 this
        · intro b bs hfilter
          constructor
          · unfold Mediation.selectWinners
            rw [hfilter]
            simp
          · intro w hw
            unfold Mediation.selectWinners at hw
            rw [hfilter] at hw
            rcases List.mem_cons.mp hw with heqw | hw2
            · exact (Prod.mk.injEq .. ▸ heqw).2
            · have := selectWinners_fst_mem floor rest (impId, w) hw2
              exact absurd this hnd0
      · have hne : impId ≠ impId0 := by
          intro hc
          subst hc
          exact hnd0 (by
            rw [List.mem_map]
            exact ⟨(impId, bids), hmem2, rfl⟩)
        have hrec := ih hndrest impId bids hmem2
        constructor
        · intro hempty w hw
          unfold Mediation.selectWinners at hw
          cases hf : bids0.filter (fun rb => floor ≤ rb.resolved_price) with
          | nil =>
              rw [hf] at hw
              exact hrec.1 hempty w hw
          | cons b0 bs0 =>
              rw [hf] at hw
              rcases List.mem_cons.mp hw with heqw | hw2
              · exact hne (Prod.mk.injEq .. ▸ heqw).1
              · exact hrec.1 hempty w hw2
        · intro b bs hfilter
          constructor
          · unfold Mediation.selectWinners
            cases hf : bids0.filter (fun rb => floor ≤ rb.resolved_price) with
            | nil => exact (hrec.2 b bs hfilter).1
            | cons b0 bs0 =>
                exact List.mem_cons_of_mem _ ((hrec.2 b bs hfilter).1)
          · intro w hw
            unfold Mediation.selectWinners at hw
            cases hf : bids0.filter (fun rb => floor ≤ rb.resolved_price) with
            | nil =>
                rw [hf] at hw
                exact (hrec.2 b bs hfilter).2 w hw
            | cons b0 bs0 =>
                rw [hf] at hw
                rcases List.mem_cons.mp hw with heqw | hw2
                · exact absurd (Prod.mk.injEq .. ▸ heqw).1 hne
                · exact (hrec.2 b bs hfilter).2 w hw2

/-- **C1**: given a successful collection pass producing `groups`,
`mediate_auction` succeeds with the winners selected at the effective
floor (0 when no config is given); within each impression group the
retained bids are exactly those not strictly below the floor, an
impression whose retained list is empty is omitted from the winner list
(with no error), and otherwise the unique winner for the impression is
the left-to-right reduce result: the earliest bid of maximal resolved
price (strictly greater prices before it, at-most-equal after it). -/
theorem C1_mediation_winner_selection (request : MediationRequest) (base_host : String)
    (groups : List (String × List ResolvedBid))
    (hcollect : Mediation.collectAll request.ext.bidder_responses [] = .ok groups) :
    Mediation.mediate_auction request base_host =
      .ok (Mediation.build_openrtb_response request.id
        (Mediation.selectWinners (Mediation.defaultFloor request) groups) base_host) ∧
    (request.ext.config = none → Mediation.defaultFloor request = 0) ∧
    ∀ impId bids, (impId, bids) ∈ groups →
      ((∀ rb ∈ bids,
          rb ∈ Mediation.keptBids (Mediation.defaultFloor request) bids ↔
            ¬ rb.resolved_price < Mediation.defaultFloor request) ∧
       (Mediation.keptBids (Mediation.defaultFloor request) bids = [] →
          ∀ w, (impId, w) ∉
            Mediation.selectWinners (Mediation.defaultFloor request) groups) ∧
       (∀ b bs, Mediation.keptBids (Mediation.defaultFloor request) bids = b :: bs →
          (impId, Mediation.pickWinner b bs) ∈
            Mediation.selectWinners (Mediation.defaultFloor request) groups ∧
          (∀ w, (impId, w) ∈
              Mediation.selectWinners (Mediation.defaultFloor request) groups →
            w = Mediation.pickWinner b bs) ∧
          ∃ pre post,
            b :: bs = pre ++ Mediation.pickWinner b bs :: post ∧
            (∀ rb ∈ pre,
              rb.resolved_price < (Mediation.pickWinner b bs).resolved_price) ∧
            (∀ rb ∈ post,
              rb.resolved_price ≤ (Mediation.pickWinner b bs).resolved_price))) := by
  refine ⟨?_, ?_, ?_⟩
  · unfold Mediation.mediate_auction
    rw [hcollect]
    rfl
  · intro h
    simp [Mediation.defaultFloor, h]
  · intro impId bids hmem
    have hnd : (groups.map Prod.fst).Nodup :=
      collectAll_fst_nodup request.ext.bidder_responses [] groups hcollect (by simp)
    have hentry :=
      selectWinners_entry (Mediation.defaultFloor request) groups hnd impId bids hmem
    refine ⟨?_, ?_, ?_⟩
    · intro rb hrb
      simp [Mediation.keptBids, List.mem_filter, hrb, not_lt]
    · intro hempty
      exact hentry.1 hempty
    · intro b bs hcons
      obtain ⟨hmemw, huniq⟩ := hentry.2 b bs hcons
      exact ⟨hmemw, huniq, pickWinner_split bs b⟩

def c1Request : MediationRequest :=
  MediationRequest.mk "m1" []
    (MediationExt.mk
      [BidderResponse.mk "alpha"
        [MediationBid.mk "imp1" (some (5/2)) none none 300 250 none none,
         MediationBid.mk "imp2" (some 1) none none 728 90 none none],
       BidderResponse.mk "beta"
        [MediationBid.mk "imp1" (some (5/2)) none none 300 250 none none]]
      (some (MediationConfig.mk (some 2))))

def c1Groups : List (String × List ResolvedBid) :=
  [("imp1",
    [ResolvedBid.mk "alpha" (MediationBid.mk "imp1" (some (5/2)) none none 300 250 none none)
      (5/2),
     ResolvedBid.mk "beta" (MediationBid.mk "imp1" (some (5/2)) none none 300 250 none none)
      (5/2)]),
   ("imp2",
    [ResolvedBid.mk "alpha" (MediationBid.mk "imp2" (some 1) none none 728 90 none none) 1])]

theorem C1_mediation_winner_selection_witness :
    Mediation.collectAll c1Request.ext.bidder_responses [] = .ok c1Groups ∧
    Mediation.mediate_auction c1Request "mock.local" =
      .ok (Mediation.build_openrtb_response c1Request.id
        (Mediation.selectWinners (Mediation.defaultFloor c1Request) c1Groups) "mock.local") :=
  ⟨by rfl,
   (C1_mediation_winner_selection c1Request "mock.local" c1Groups (by rfl)).1⟩

/-- All (seat name, bid) pairs held by a seat map. -/
def Mediation.seatPairs (seats : List (String × List Bid)) : List (String × Bid) :=
  seats.flatMap fun s => s.2.map fun b => (s.1, b)

/-- The (winning bidder, output bid) pairs the grouping loop feeds into
the seat map, with their fresh-id indices. -/
def Mediation.winPairs (base_host : String) :
    List (String × ResolvedBid) → ℕ → List (String × Bid)
  | [], _ => []
  | (impId, rb) :: rest, idx =>
      (rb.bidder, Mediation.buildBid base_host idx impId rb) ::
        Mediation.winPairs base_host rest (idx + 1)

theorem seatPairs_cons (s : String × List Bid) (l : List (String × List Bid)) :
    Mediation.seatPairs (s :: l) =
      (s.2.map fun b => (s.1, b)) ++ Mediation.seatPairs l := rfl

theorem pushSeat_seatPairs_perm (bidder : String) (b : Bid) :
    ∀ seats : List (String × List Bid),
    (Mediation.seatPairs (Mediation.pushSeat seats bidder b)).Perm
      ((bidder, b) :: Mediation.seatPairs seats) := by
  intro seats
  induction seats with
  | nil => simp [Mediation.pushSeat, Mediation.seatPairs]
  | cons kv rest ih =>
      obtain ⟨k, vs⟩ := kv
      by_cases hk : k = bidder
      · subst hk
        have hpush : Mediation.pushSeat ((k, vs) :: rest) k b = (k, vs ++ [b]) :: rest := by
          simp [Mediation.pushSeat]
        rw [hpush, seatPairs_cons, seatPairs_cons]
        have hmap : (vs ++ [b]).map (fun x => (k, x)) =
            vs.map (fun x => (k, x)) ++ [(k, b)] := by simp
        rw [hmap, List.append_assoc, List.singleton_append]
        exact List.perm_middle
      · have hpush : Mediation.pushSeat ((k, vs) :: rest) bidder b =
            (k, vs) :: Mediation.pushSeat rest bidder b := by
          simp [Mediation.pushSeat, hk]
        rw [hpush, seatPairs_cons, seatPairs_cons]
        exact (ih.append_left _).trans List.perm_middle

theorem groupSeats_seatPairs_perm (base_host : String) :
    ∀ (winning : List (String × ResolvedBid)) (idx : ℕ)
      (seats : List (String × List Bid)),
    (Mediation.seatPairs (Mediation.groupSeats base_host winning idx seats)).Perm
      (Mediation.winPairs base_host winning idx ++ Mediation.seatPairs seats) := by
  intro winning
  induction winning with
  | nil =>
      intro idx seats
      simp [Mediation.groupSeats, Mediation.winPairs]
  | cons w rest ih =>
      obtain ⟨impId, rb⟩ := w
      intro idx seats
      have hg : Mediation.groupSeats base_host ((impId, rb) :: rest) idx seats =
          Mediation.groupSeats base_host rest (idx + 1)
            (Mediation.pushSeat seats rb.bidder
              (Mediation.buildBid base_host idx impId rb)) := rfl
      have hw : Mediation.winPairs base_host ((impId, rb) :: rest) idx =
          (rb.bidder, Mediation.buildBid base_host idx impId rb) ::
            Mediation.winPairs base_host rest (idx + 1) := rfl
      rw [hg, hw]
      refine (ih (idx + 1) _).trans ?_
      refine ((pushSeat_seatPairs_perm _ _ seats).append_left _).trans ?_
      rw [List.cons_append]
      exact List.perm_middle

theorem winPairs_mem (base_host : String) :
    ∀ (winning : List (String × ResolvedBid)) (idx : ℕ) (p : String × Bid),
    p ∈ Mediation.winPairs base_host winning idx ↔
      ∃ i, ∃ hi : i < winning.length,
        p = (winning[i].2.bidder,
             Mediation.buildBid base_host (idx + i) winning[i].1 winning[i].2) := by
  intro winning
  induction winning with
  | nil =>
      intro idx p
      constructor
      · intro hp
        rw [show Mediation.winPairs base_host [] idx = [] from rfl] at hp
        simp at hp
      · rintro ⟨i, hi, _⟩
        exact absurd hi (by simp)
  | cons w rest ih =>
      obtain ⟨impId, rb⟩ := w
      intro idx p
      have hw : Mediation.winPairs base_host ((impId, rb) :: rest) idx =
          (rb.bidder, Mediation.buildBid base_host idx impId rb) ::
            Mediation.winPairs base_host rest (idx + 1) := rfl
      rw [hw, List.mem_cons, ih (idx + 1) p]
      constructor
      · rintro (rfl | ⟨i, hi, hp⟩)
        · exact ⟨0, by simp, by simp⟩
        · refine ⟨i + 1, by simpa using Nat.succ_lt_succ hi, ?_⟩
          rw [hp]
          have harith : idx + 1 + i = idx + (i + 1) := by omega
          simp [harith]
      · rintro ⟨i, hi, hp⟩
        cases i with
        | zero =>
            left
            rw [hp]
            simp
        | succ i =>
            right
            refine ⟨i, by simpa using Nat.lt_of_succ_lt_succ hi, ?_⟩
            rw [hp]
            have harith : idx + (i + 1) = idx + 1 + i := by omega
            simp [harith]

theorem winPairs_impid (base_host : String) :
    ∀ (winning : List (String × ResolvedBid)) (idx : ℕ),
    (Mediation.winPairs base_host winning idx).map (fun p => p.2.impid) =
      winning.map Prod.fst := by
  intro winning
  induction winning with
  | nil =>
      intro idx
      rfl
  | cons w rest ih =>
      obtain ⟨impId, rb⟩ := w
      intro idx
      have hw : Mediation.winPairs base_host ((impId, rb) :: rest) idx =
          (rb.bidder, Mediation.buildBid base_host idx impId rb) ::
            Mediation.winPairs base_host rest (idx + 1) := rfl
      rw [hw, List.map_cons, List.map_cons, ih (idx + 1)]
      rfl

theorem winPairs_id_genId (base_host : String) :
    ∀ (winning : List (String × ResolvedBid)) (idx : ℕ),
    ((Mediation.winPairs base_host winning idx).map fun p => p.2.id).Nodup ∧
    ∀ s ∈ (Mediation.winPairs base_host winning idx).map fun p => p.2.id,
      ∃ j, idx ≤ j ∧ s = genId j := by
  intro winning
  induction winning with
  | nil =>
      intro idx
      refine ⟨List.nodup_nil, ?_⟩
      intro s hs
      rw [show Mediation.winPairs base_host [] idx = [] from rfl] at hs
      simp at hs
  | cons w rest ih =>
      obtain ⟨impId, rb⟩ := w
      intro idx
      have hw : Mediation.winPairs base_host ((impId, rb) :: rest) idx =
          (rb.bidder, Mediation.buildBid base_host idx impId rb) ::
            Mediation.winPairs base_host rest (idx + 1) := rfl
      rw [hw, List.map_cons]
      obtain ⟨hnd, hbound⟩ := ih (idx + 1)
      constructor
      · rw [List.nodup_cons]
        refine ⟨?_, hnd⟩
        intro hmem
        obtain ⟨j, hj, hs⟩ := hbound _ hmem
        rw [show (Mediation.buildBid base_host idx impId rb).id = genId idx from rfl] at hs
        have := genId_injective hs
        omega
      · intro s hs
        rcases List.mem_cons.mp hs with rfl | hs2
        · exact ⟨idx, le_refl _, rfl⟩
        · obtain ⟨j, hj, hsg⟩ := hbound s hs2
          exact ⟨j, by omega, hsg⟩

theorem pushSeat_nonempty (bidder : String) (b : Bid) :
    ∀ seats : List (String × List Bid),
    (∀ s ∈ seats, s.2 ≠ []) →
    ∀ s ∈ Mediation.pushSeat seats bidder b, s.2 ≠ [] := by
  intro seats
  induction seats with
  | nil =>
      intro _ s hs
      rw [show Mediation.pushSeat [] bidder b = [(bidder, [b])] from rfl] at hs
      rcases List.mem_singleton.mp hs with rfl
      simp
  | cons kv rest ih =>
      obtain ⟨k, vs⟩ := kv
      intro hall s hs
      by_cases hk : k = bidder
      · subst hk
        rw [show Mediation.pushSeat ((k, vs) :: rest) k b = (k, vs ++ [b]) :: rest from by
          simp [Mediation.pushSeat]] at hs
        rcases List.mem_cons.mp hs with rfl | hs2
        · simp
        · exact hall s (List.mem_cons_of_mem _ hs2)
      · rw [show Mediation.pushSeat ((k, vs) :: rest) bidder b =
            (k, vs) :: Mediation.pushSeat rest bidder b from by
          simp [Mediation.pushSeat, hk]] at hs
        rcases List.mem_cons.mp hs with rfl | hs2
        · exact hall (k, vs) (by simp)
        · exact ih (fun t ht => hall t (List.mem_cons_of_mem _ ht)) s hs2

theorem groupSeats_nonempty (base_host : String) :
    ∀ (winning : List (String × ResolvedBid)) (idx : ℕ)
      (seats : List (String × List Bid)),
    (∀ s ∈ seats, s.2 ≠ []) →
    ∀ s ∈ Mediation.groupSeats base_host winning idx seats, s.2 ≠ [] := by
  intro winning
  induction winning with
  | nil =>
      intro idx seats hall s hs
      exact hall s hs
  | cons w rest ih =>
      obtain ⟨impId, rb⟩ := w
      intro idx seats hall s hs
      rw [show Mediation.groupSeats base_host ((impId, rb) :: rest) idx seats =
          Mediation.groupSeats base_host rest (idx + 1)
            (Mediation.pushSeat seats rb.bidder
              (Mediation.buildBid base_host idx impId rb)) from rfl] at hs
      exact ih (idx + 1) _ (pushSeat_nonempty _ _ seats hall) s hs

theorem seatPairs_snd_map (seats : List (String × List Bid)) (f : Bid → String) :
    (Mediation.seatPairs seats).map (fun p => f p.2) =
      (seats.flatMap fun s => s.2).map f := by
  induction seats with
  | nil => rfl
  | cons s rest ih =>
      rw [seatPairs_cons, List.flatMap_cons, List.map_append, List.map_append, ih,
        List.map_map]
      rfl

theorem selectWinners_fst_sublist (floor : ℚ) :
    ∀ groups : List (String × List ResolvedBid),
    ((Mediation.selectWinners floor groups).map Prod.fst).Sublist (groups.map Prod.fst) := by
  intro groups
  induction groups with
  | nil => simp [Mediation.selectWinners]
  | cons kv rest ih =>
      obtain ⟨impId, bids⟩ := kv
      unfold Mediation.selectWinners
      cases hf : bids.filter (fun rb => floor ≤ rb.resolved_price) with
      | nil =>
          show (List.map Prod.fst
            (Mediation.selectWinners floor rest)).Sublist
            (List.map Prod.fst ((impId, bids) :: rest))
          rw [List.map_cons]
          exact ih.cons _
      | cons b bs =>
          show (List.map Prod.fst
            ((impId, Mediation.pickWinner b bs) :: Mediation.selectWinners floor rest)).Sublist
            (List.map Prod.fst ((impId, bids) :: rest))
          rw [List.map_cons, List.map_cons]
          exact ih.cons₂ _

theorem map_seatBid_flatMap (G : List (String × List Bid)) :
    ((G.map fun s => SeatBid.mk (some s.1) s.2).flatMap fun sb => sb.bid) =
      G.flatMap fun s => s.2 := by
  induction G with
  | nil => rfl
  | cons s rest ih => simp [ih]

theorem build_response_invariants (rid base_host : String)
    (winning : List (String × ResolvedBid))
    (hnd : (winning.map Prod.fst).Nodup) :
    (∀ sb ∈ (Mediation.build_openrtb_response rid winning base_host).seatbid,
      sb.bid ≠ []) ∧
    ((((Mediation.build_openrtb_response rid winning base_host).seatbid.flatMap
        fun sb => sb.bid).map Bid.impid).Nodup) ∧
    ((((Mediation.build_openrtb_response rid winning base_host).seatbid.flatMap
        fun sb => sb.bid).map Bid.id).Nodup) ∧
    ∀ sb ∈ (Mediation.build_openrtb_response rid winning base_host).seatbid,
      ∀ b ∈ sb.bid,
      ∃ i, ∃ hi : i < winning.length,
        sb.seat = some winning[i].2.bidder ∧
        b = Mediation.buildBid base_host i winning[i].1 winning[i].2 ∧
        b.impid = winning[i].1 ∧
        b.price = winning[i].2.resolved_price ∧
        b.id = genId i := by
  have hsb : (Mediation.build_openrtb_response rid winning base_host).seatbid =
      (Mediation.groupSeats base_host winning 0 []).map
        (fun s => SeatBid.mk (some s.1) s.2) := rfl
  have hperm : (Mediation.seatPairs (Mediation.groupSeats base_host winning 0 [])).Perm
      (Mediation.winPairs base_host winning 0) := by
    have h := groupSeats_seatPairs_perm base_host winning 0 []
    rw [show Mediation.seatPairs [] = [] from rfl, List.append_nil] at h
    exact h
  rw [hsb]
  refine ⟨?_, ?_, ?_, ?_⟩
  · intro sb hsb2
    obtain ⟨s, hsG, rfl⟩ := List.mem_map.mp hsb2
    exact groupSeats_nonempty base_host winning 0 [] (by simp) s hsG
  · rw [map_seatBid_flatMap, ← seatPairs_snd_map]
    have h2 : ((Mediation.winPairs base_host winning 0).map fun p => p.2.impid).Nodup := by
      rw [winPairs_impid]
      exact hnd
    exact ((hperm.map _).nodup_iff).mpr h2
  · rw [map_seatBid_flatMap, ← seatPairs_snd_map]
    exact ((hperm.map _).nodup_iff).mpr (winPairs_id_genId base_host winning 0).1
  · intro sb hsb2 b hb
    obtain ⟨s, hsG, rfl⟩ := List.mem_map.mp hsb2
    have hpair : (s.1, b) ∈ Mediation.seatPairs (Mediation.groupSeats base_host winning 0 []) := by
      show (s.1, b) ∈ (Mediation.groupSeats base_host winning 0 []).flatMap
        fun t => t.2.map fun c => (t.1, c)
      exact List.mem_flatMap.mpr ⟨s, hsG, List.mem_map_of_mem _ hb⟩
    have hpair2 : (s.1, b) ∈ Mediation.winPairs base_host winning 0 :=
      (hperm.mem_iff).mp hpair
    obtain ⟨i, hi, hpe⟩ := (winPairs_mem base_host winning 0 (s.1, b)).mp hpair2
    have h1 : s.1 = winning[i].2.bidder := (Prod.mk.injEq .. ▸ hpe).1
    have h2 : b = Mediation.buildBid base_host (0 + i) winning[i].1 winning[i].2 :=
      (Prod.mk.injEq .. ▸ hpe).2
    rw [Nat.zero_add] at h2
    refine ⟨i, hi, ?_, h2, ?_, ?_, ?_⟩
    · show some s.1 = some winning[i].2.bidder
      exact congrArg some h1
    · rw [h2]
      rfl
    · rw [h2]
      rfl
    · rw [h2]
      rfl

/-- **C8**: every successful mediation response groups the winning bids
into seats named by the winning bidder: no seat is empty, each
impression id occurs in at most one output bid across all seats, each
output bid sits under the seat of its winning bidder and carries the
resolved price, and every output bid's id is freshly generated from its
winner index (`genId`), with all output ids pairwise distinct. -/
theorem C8_response_invariants (request : MediationRequest) (base_host : String)
    (resp : OpenRTBResponse)
    (hok : Mediation.mediate_auction request base_host = .ok resp) :
    (∀ sb ∈ resp.seatbid, sb.bid ≠ []) ∧
    ((resp.seatbid.flatMap fun sb => sb.bid).map Bid.impid).Nodup ∧
    ((resp.seatbid.flatMap fun sb => sb.bid).map Bid.id).Nodup ∧
    ∃ winning : List (String × ResolvedBid),
      (∃ groups, Mediation.collectAll request.ext.bidder_responses [] = .ok groups ∧
        winning = Mediation.selectWinners (Mediation.defaultFloor request) groups) ∧
      resp.seatbid = (Mediation.groupSeats base_host winning 0 []).map
        (fun s => SeatBid.mk (some s.1) s.2) ∧
      ∀ sb ∈ resp.seatbid, ∀ b ∈ sb.bid,
        ∃ i, ∃ hi : i < winning.length,
          sb.seat = some winning[i].2.bidder ∧
          b = Mediation.buildBid base_host i winning[i].1 winning[i].2 ∧
          b.impid = winning[i].1 ∧
          b.price = winning[i].2.resolved_price ∧
          b.id = genId i := by
  unfold Mediation.mediate_auction at hok
  cases hcol : Mediation.collectAll request.ext.bidder_responses [] with
  | error e =>
      rw [hcol] at hok
      cases hok
  | ok groups =>
      rw [hcol] at hok
      have hok2 : Except.ok (Mediation.build_openrtb_response request.id
          (Mediation.selectWinners (Mediation.defaultFloor request) groups) base_host) =
          Except.ok resp := hok
      have hresp : resp = Mediation.build_openrtb_response request.id
          (Mediation.selectWinners (Mediation.defaultFloor request) groups) base_host := by
        injection hok2 with h
        exact h.symm
      subst hresp
      have hndg : (groups.map Prod.fst).Nodup :=
        collectAll_fst_nodup request.ext.bidder_responses [] groups hcol (by simp)
      have hndw : ((Mediation.selectWinners (Mediation.defaultFloor request) groups).map
          Prod.fst).Nodup :=
        List.Nodup.sublist (selectWinners_fst_sublist _ groups) hndg
      obtain ⟨hne, hnimp, hnid, hper⟩ :=
        build_response_invariants request.id base_host _ hndw
      exact ⟨hne, hnimp, hnid, _, ⟨groups, rfl, rfl⟩, rfl, hper⟩

def c8Request : MediationRequest :=
  MediationRequest.mk "m8" []
    (MediationExt.mk
      [BidderResponse.mk "gamma"
        [MediationBid.mk "imp1" (some 3) none none 300 250 none none]] none)

def c8Resp : OpenRTBResponse :=
  Mediation.build_openrtb_response "m8"
    (Mediation.selectWinners 0
      [("imp1",
        [ResolvedBid.mk "gamma"
          (MediationBid.mk "imp1" (some 3) none none 300 250 none none) 3])])
    "mock.local"

theorem C8_response_invariants_witness :
    Mediation.mediate_auction c8Request "mock.local" = .ok c8Resp ∧
    ((c8Resp.seatbid.flatMap fun sb => sb.bid).map Bid.impid).Nodup ∧
    ((c8Resp.seatbid.flatMap fun sb => sb.bid).map Bid.id).Nodup :=
  ⟨by rfl,
   (C8_response_invariants c8Request "mock.local" c8Resp (by rfl)).2.1,
   (C8_response_invariants c8Request "mock.local" c8Resp (by rfl)).2.2.1⟩

theorem den_one_of_eq_num (q : ℚ) (n : ℤ) (h : q = (n : ℚ)) : q.den = 1 := by
  rw [h]
  exact Rat.den_intCast n

theorem lookupSize_mem_snd :
    ∀ (l : List ((ℤ × ℤ) × ℚ)) (w h : ℤ) (c : ℚ),
    Auction.lookupSize l w h = some c → c ∈ l.map Prod.snd := by
  intro l
  induction l with
  | nil =>
      intro w h c hc
      cases hc
  | cons kv rest ih =>
      obtain ⟨key, cpm⟩ := kv
      intro w h c hc
      rw [show Auction.lookupSize ((key, cpm) :: rest) w h =
          (if (w, h) = key then some cpm else Auction.lookupSize rest w h) from rfl] at hc
      by_cases hk : (w, h) = key
      · rw [if_pos hk] at hc
        injection hc with hc
        subst hc
        simp
      · rw [if_neg hk] at hc
        exact List.mem_cons_of_mem _ (ih w h c hc)

theorem get_cpm_standard_decodes (w h : ℤ)
    (hs : Auction.is_standard_size w h = true) :
    Auction.decode_aps_price (Auction.encode_aps_price (Auction.get_cpm w h)) =
      some (Auction.get_cpm w h) := by
  unfold Auction.is_standard_size at hs
  cases hl : Auction.lookupSize Auction.SIZE_MAP w h with
  | none =>
      rw [hl] at hs
      simp at hs
  | some cpm =>
      have hget : Auction.get_cpm w h = cpm := by
        unfold Auction.get_cpm
        rw [hl]
      rw [hget]
      have hmem : cpm ∈ Auction.SIZE_MAP.map Prod.snd :=
        lookupSize_mem_snd Auction.SIZE_MAP w h cpm hl
      have hmem2 : cpm ∈ ([2.50, 2.60, 3.00, 3.80, 3.20, 3.50, 4.20, 2.00, 1.80,
          1.70, 2.20, 2.80, 2.80] : List ℚ) := by
        simpa [Auction.SIZE_MAP] using hmem
      fin_cases hmem2 <;>
        refine decode_encode_aps_price _ (by norm_num) ⟨2, by norm_num, ?_⟩
      · exact den_one_of_eq_num _ 250 (by norm_num)
      · exact den_one_of_eq_num _ 260 (by norm_num)
      · exact den_one_of_eq_num _ 300 (by norm_num)
      · exact den_one_of_eq_num _ 380 (by norm_num)
      · exact den_one_of_eq_num _ 320 (by norm_num)
      · exact den_one_of_eq_num _ 350 (by norm_num)
      · exact den_one_of_eq_num _ 420 (by norm_num)
      · exact den_one_of_eq_num _ 200 (by norm_num)
      · exact den_one_of_eq_num _ 180 (by norm_num)
      · exact den_one_of_eq_num _ 170 (by norm_num)
      · exact den_one_of_eq_num _ 220 (by norm_num)
      · exact den_one_of_eq_num _ 280 (by norm_num)
      · exact den_one_of_eq_num _ 280 (by norm_num)

theorem maxByPrice_go (l : List (ℕ × ℕ × ℚ)) : ∀ a : ℕ × ℕ × ℚ,
    ∃ m, l.foldl
        (fun acc x =>
          match acc with
          | none => some x
          | some a => if a.2.2 ≤ x.2.2 then some x else some a)
        (some a) = some m ∧
      (m = a ∨ m ∈ l) ∧ a.2.2 ≤ m.2.2 ∧ ∀ x ∈ l, x.2.2 ≤ m.2.2 := by
  induction l with
  | nil =>
      intro a
      exact ⟨a, rfl, Or.inl rfl, le_refl _, by simp⟩
  | cons x xs ih =>
      intro a
      rw [List.foldl_cons]
      show ∃ m, List.foldl
          (fun acc x =>
            match acc with
            | none => some x
            | some a => if a.2.2 ≤ x.2.2 then some x else some a)
          (if a.2.2 ≤ x.2.2 then some x else some a) xs = some m ∧
        (m = a ∨ m ∈ x :: xs) ∧ a.2.2 ≤ m.2.2 ∧ ∀ y ∈ x :: xs, y.2.2 ≤ m.2.2
      by_cases hle : a.2.2 ≤ x.2.2
      · rw [if_pos hle]
        obtain ⟨m, hm, hmem, hle2, hall⟩ := ih x
        refine ⟨m, hm, ?_, le_trans hle hle2, ?_⟩
        · rcases hmem with rfl | hmm
          · exact Or.inr (by simp)
          · exact Or.inr (List.mem_cons_of_mem _ hmm)
        · intro y hy
          rcases List.mem_cons.mp hy with rfl | hy2
          · exact hle2
          · exact hall y hy2
      · rw [if_neg hle]
        obtain ⟨m, hm, hmem, hle2, hall⟩ := ih a
        refine ⟨m, hm, ?_, hle2, ?_⟩
        · rcases hmem with rfl | hmm
          · exact Or.inl rfl
          · exact Or.inr (List.mem_cons_of_mem _ hmm)
        · intro y hy
          rcases List.mem_cons.mp hy with rfl | hy2
          · exact le_trans (le_of_lt (not_le.mp hle)) hle2
          · exact hall y hy2

theorem maxByPrice_eq_none (l : List (ℕ × ℕ × ℚ)) :
    Auction.maxByPrice l = none ↔ l = [] := by
  cases l with
  | nil => simp [Auction.maxByPrice]
  | cons c ls =>
      constructor
      · intro hn
        obtain ⟨m, hm, _, _, _⟩ := maxByPrice_go ls c
        rw [show Auction.maxByPrice (c :: ls) = ls.foldl
            (fun acc x =>
              match acc with
              | none => some x
              | some a => if a.2.2 ≤ x.2.2 then some x else some a)
            (some c) from rfl, hm] at hn
        cases hn
      · intro hc
        cases hc

theorem maxByPrice_spec (l : List (ℕ × ℕ × ℚ)) (m : ℕ × ℕ × ℚ)
    (h : Auction.maxByPrice l = some m) :
    m ∈ l ∧ ∀ x ∈ l, x.2.2 ≤ m.2.2 := by
  cases l with
  | nil => cases h
  | cons c ls =>
      obtain ⟨m2, hm2, hmem, hle, hall⟩ := maxByPrice_go ls c
      rw [show Auction.maxByPrice (c :: ls) = ls.foldl
          (fun acc x =>
            match acc with
            | none => some x
            | some a => if a.2.2 ≤ x.2.2 then some x else some a)
          (some c) from rfl, hm2] at h
      injection h with h
      subst h
      constructor
      · rcases hmem with rfl | hmm
        · simp
        · exact List.mem_cons_of_mem _ hmm
      · intro y hy
        rcases List.mem_cons.mp hy with rfl | hy2
        · exact hle
        · exact hall y hy2

theorem slotCandidates_mem (slot : ApsSlot) (m : ℕ × ℕ × ℚ)
    (h : m ∈ Auction.slotCandidates slot) :
    (m.1, m.2.1) ∈ slot.sizes ∧
    Auction.is_standard_size (m.1 : ℤ) (m.2.1 : ℤ) = true ∧
    m.2.2 = Auction.get_cpm (m.1 : ℤ) (m.2.1 : ℤ) := by
  unfold Auction.slotCandidates at h
  obtain ⟨p, hp, hf⟩ := List.mem_filterMap.mp h
  by_cases hs : Auction.is_standard_size (p.1 : ℤ) (p.2 : ℤ) = true
  · rw [if_pos hs] at hf
    injection hf with hf
    subst hf
    exact ⟨Prod.mk.eta ▸ hp, hs, rfl⟩
  · rw [if_neg hs] at hf
    cases hf

theorem slotCandidates_eq_nil_iff (slot : ApsSlot) :
    Auction.slotCandidates slot = [] ↔
      ∀ p ∈ slot.sizes, Auction.is_standard_size (p.1 : ℤ) (p.2 : ℤ) = false := by
  unfold Auction.slotCandidates
  rw [List.filterMap_eq_nil_iff]
  constructor
  · intro h p hp
    have h2 := h p hp
    cases hs : Auction.is_standard_size (p.1 : ℤ) (p.2 : ℤ) with
    | false => rfl
    | true => simp [hs] at h2
  · intro h p hp
    simp [h p hp]

theorem buildSlots_skip (slot : ApsSlot) (rest : List ApsSlot) (ctr : ℕ)
    (hm : Auction.maxByPrice (Auction.slotCandidates slot) = none) :
    Auction.buildSlots (slot :: rest) ctr = Auction.buildSlots rest ctr := by
  simp only [Auction.buildSlots]
  rw [hm]

theorem buildSlots_emit (slot : ApsSlot) (rest : List ApsSlot) (ctr : ℕ)
    (w h : ℕ) (price : ℚ)
    (hm : Auction.maxByPrice (Auction.slotCandidates slot) = some (w, h, price)) :
    Auction.buildSlots (slot :: rest) ctr =
      { slot_id := slot.slot_id
        size := Auction.sizeStr w h
        crid := some (genId (ctr + 1) ++ "-mocktioneer")
        media_type := some "d"
        fif := some "1"
        targeting := ["amzniid", "amznp", "amznsz", "amznbid", "amznactt"]
        meta := ["slotID", "mediaType", "size"]
        amzniid := some (genId ctr)
        amznbid := some (String.mk (Auction.encode_aps_price price))
        amznp := some (String.mk (Auction.encode_aps_price price))
        amznsz := some (Auction.sizeStr w h)
        amznactt := some "OPEN" } :: Auction.buildSlots rest (ctr + 2) := by
  simp only [Auction.buildSlots]
  rw [hm]

theorem buildSlots_slot_ids :
    ∀ (slots : List ApsSlot) (ctr : ℕ),
    (Auction.buildSlots slots ctr).map ApsSlotResponse.slot_id =
      (slots.filter fun slot =>
        slot.sizes.any fun p => Auction.is_standard_size (p.1 : ℤ) (p.2 : ℤ)).map
        ApsSlot.slot_id := by
  intro slots
  induction slots with
  | nil => intro ctr; rfl
  | cons slot rest ih =>
      intro ctr
      cases hm : Auction.maxByPrice (Auction.slotCandidates slot) with
      | none =>
          have hnilc : Auction.slotCandidates slot = [] := (maxByPrice_eq_none _).mp hm
          have hany : (slot.sizes.any fun p =>
              Auction.is_standard_size (p.1 : ℤ) (p.2 : ℤ)) = false := by
            rw [List.any_eq_false]
            intro p hp
            have := (slotCandidates_eq_nil_iff slot).mp hnilc p hp
            simp [this]
          rw [buildSlots_skip slot rest ctr hm, List.filter_cons, hany]
          simp only [Bool.false_eq_true, if_false]
          exact ih ctr
      | some m =>
          obtain ⟨w, h, price⟩ := m
          have hne : Auction.slotCandidates slot ≠ [] := by
            intro hc
            rw [(maxByPrice_eq_none _).mpr hc] at hm
            cases hm
          have hany : (slot.sizes.any fun p =>
              Auction.is_standard_size (p.1 : ℤ) (p.2 : ℤ)) = true := by
            by_contra hc
            rw [Bool.not_eq_true, List.any_eq_false] at hc
            refine hne ((slotCandidates_eq_nil_iff slot).mpr ?_)
            intro p hp
            have := hc p hp
            simpa using this
          rw [buildSlots_emit slot rest ctr w h price hm, List.filter_cons, hany]
          simp only [if_true]
          rw [List.map_cons, List.map_cons, ih (ctr + 2)]

theorem buildSlots_mem :
    ∀ (slots : List ApsSlot) (ctr : ℕ) (sr : ApsSlotResponse),
    sr ∈ Auction.buildSlots slots ctr →
    ∃ slot, slot ∈ slots ∧ ∃ w h : ℕ, ∃ price : ℚ,
      Auction.maxByPrice (Auction.slotCandidates slot) = some (w, h, price) ∧
      sr.slot_id = slot.slot_id ∧
      sr.size = Auction.sizeStr w h ∧
      sr.amznbid = some (String.mk (Auction.encode_aps_price price)) ∧
      sr.amznp = some (String.mk (Auction.encode_aps_price price)) := by
  intro slots
  induction slots with
  | nil =>
      intro ctr sr hsr
      rw [show Auction.buildSlots [] ctr = [] from rfl] at hsr
      simp at hsr
  | cons slot rest ih =>
      intro ctr sr hsr
      cases hm : Auction.maxByPrice (Auction.slotCandidates slot) with
      | none =>
          rw [buildSlots_skip slot rest ctr hm] at hsr
          obtain ⟨slot2, hslot2, hrest⟩ := ih ctr sr hsr
          exact ⟨slot2, List.mem_cons_of_mem _ hslot2, hrest⟩
      | some m =>
          obtain ⟨w, h, price⟩ := m
          rw [buildSlots_emit slot rest ctr w h price hm] at hsr
          rcases List.mem_cons.mp hsr with rfl | hsr2
          · exact ⟨slot, by simp, w, h, price, hm, rfl, rfl, rfl, rfl⟩
          · obtain ⟨slot2, hslot2, hrest⟩ := ih (ctr + 2) sr hsr2
            exact ⟨slot2, List.mem_cons_of_mem _ hslot2, hrest⟩

/-- **C10**: `build_aps_response` emits a response slot exactly for the
input slots having at least one standard size, in order (slots with no
standard size are silently omitted); an emitted slot's chosen size is a
standard size of that slot maximizing `get_cpm` among its standard
sizes; its `amznbid` and `amznp` both carry the encoded chosen CPM and
decode back to it via `decode_aps_price`. -/
theorem C10_aps_slot_emission (req : ApsBidRequest) (base_host : String) :
    ((Auction.build_aps_response req base_host).contextual.slots.map
        ApsSlotResponse.slot_id =
      (req.slots.filter fun slot =>
        slot.sizes.any fun p => Auction.is_standard_size (p.1 : ℤ) (p.2 : ℤ)).map
        ApsSlot.slot_id) ∧
    ∀ sr ∈ (Auction.build_aps_response req base_host).contextual.slots,
      ∃ slot, slot ∈ req.slots ∧ ∃ w h : ℕ, ∃ price : ℚ,
        sr.slot_id = slot.slot_id ∧
        (w, h) ∈ slot.sizes ∧
        Auction.is_standard_size (w : ℤ) (h : ℤ) = true ∧
        price = Auction.get_cpm (w : ℤ) (h : ℤ) ∧
        (∀ p ∈ slot.sizes, Auction.is_standard_size (p.1 : ℤ) (p.2 : ℤ) = true →
          Auction.get_cpm (p.1 : ℤ) (p.2 : ℤ) ≤ price) ∧
        sr.size = Auction.sizeStr w h ∧
        sr.amznbid = some (String.mk (Auction.encode_aps_price price)) ∧
        sr.amznp = sr.amznbid ∧
        Auction.decode_aps_price (Auction.encode_aps_price price) = some price := by
  constructor
  · exact buildSlots_slot_ids req.slots 0
  · intro sr hsr
    have hsr2 : sr ∈ Auction.buildSlots req.slots 0 := hsr
    obtain ⟨slot, hslot, w, h, price, hmax, hsid, hsize, hbid, hp⟩ :=
      buildSlots_mem req.slots 0 sr hsr2
    obtain ⟨hmem, hle⟩ := maxByPrice_spec _ _ hmax
    obtain ⟨hsizes, hstd, hcpm⟩ := slotCandidates_mem slot _ hmem
    refine ⟨slot, hslot, w, h, price, hsid, hsizes, hstd, hcpm, ?_, hsize, hbid, ?_, ?_⟩
    · intro p hp2 hstd2
      have hc : (p.1, p.2, Auction.get_cpm (p.1 : ℤ) (p.2 : ℤ)) ∈
          Auction.slotCandidates slot := by
        unfold Auction.slotCandidates
        refine List.mem_filterMap.mpr ⟨p, hp2, ?_⟩
        rw [if_pos hstd2]
      exact hle _ hc
    · rw [hp, hbid]
    · have hcpm2 : price = Auction.get_cpm (w : ℤ) (h : ℤ) := hcpm
      rw [hcpm2]
      exact get_cpm_standard_decodes (w : ℤ) (h : ℤ) hstd

def c10Req : ApsBidRequest :=
  ApsBidRequest.mk "pub-1"
    [ApsSlot.mk "slotA" [(100, 100), (300, 250)] none,
     ApsSlot.mk "slotB" [(7, 9)] none]
    none none none

theorem C10_aps_slot_emission_witness :
    (Auction.build_aps_response c10Req "mock.local").contextual.slots.map
        ApsSlotResponse.slot_id =
      (c10Req.slots.filter fun slot =>
        slot.sizes.any fun p => Auction.is_standard_size (p.1 : ℤ) (p.2 : ℤ)).map
        ApsSlot.slot_id :=
  (C10_aps_slot_emission c10Req "mock.local").1
